import Mathlib

/-!
# Verification of the manifesto-cli module composition engine

Shallow embedding of the core of `manifesto-cli` (Go):

* `internal/scaffold/wire.go` — marker-based source injection (`WireModule`
  and the `inject*` helpers), modelled as pure text transformers over
  `List Char`;
* `internal/config/manifest.go` — the module registry and `ResolveDeps`;
* `internal/config/wiring.go` (the variant carrying `MakefileEnv` and
  `RequiredModules`, matching the fields `wire.go` reads) — the wireable
  module registry;
* `internal/remote` — `FetchModulePaths` path filtering;
* `internal/scaffold/project.go` — `InitProject`, modelled as an event
  trace over an abstract file system.

Go strings are embedded as `List Char`; byte-level `strings.Replace`,
`strings.Contains`, `strings.TrimSpace`, `strings.Split` are reproduced
as executable functions below.
-/

namespace Manifesto

abbrev Text := List Char

def txt (s : String) : Text := s.data

/-- Go `unicode.IsSpace` restricted to the ASCII whitespace that can occur
in the embedded fragments (space, tab, newline, carriage return). -/
def isSpaceChar (c : Char) : Bool :=
  c = ' ' || c = '\t' || c = '\n' || c = '\r'

/-- Left part of Go `strings.TrimSpace`. -/
def trimLeft (s : Text) : Text := s.dropWhile isSpaceChar

/-- Go `strings.TrimSpace`: drop whitespace from both ends. -/
def trimSpace (s : Text) : Text :=
  ((s.dropWhile isSpaceChar).reverse.dropWhile isSpaceChar).reverse

/-- Go `strings.Split(s, "\n")`: split on newline; `Split("") = [""]`. -/
def splitLines : Text → List Text
  | [] => [[]]
  | c :: r =>
    if c = '\n' then [] :: splitLines r
    else
      match splitLines r with
      | [] => [[c]]
      | l :: ls => (c :: l) :: ls

/-- Go `strings.Replace(s, pat, repl, 1)`: replace the first occurrence of
`pat` (for empty `pat`, insert `repl` at the front, as Go does for `n = 1`). -/
def replaceFirst (pat repl : Text) : Text → Text
  | [] => if pat <+: ([] : Text) then repl else []
  | c :: rest =>
    if pat <+: c :: rest then repl ++ (c :: rest).drop pat.length
    else c :: replaceFirst pat repl rest

/-- Fuel-indexed scanner realizing Go `strings.ReplaceAll`; fuel bounds the
number of scanning steps, and each step consumes at least one character, so
`fuel = s.length` is always sufficient (see `replaceAll`). -/
def replaceAllF (pat repl : Text) : Nat → Text → Text
  | _, [] => []
  | 0, s => s
  | f + 1, c :: r =>
    if pat ≠ [] ∧ pat <+: c :: r then
      repl ++ replaceAllF pat repl f ((c :: r).drop pat.length)
    else c :: replaceAllF pat repl f r

/-- Go `strings.ReplaceAll(s, pat, repl)` for nonempty `pat` (every
placeholder pattern in the registry is nonempty; for empty `pat` this
returns `s`, a case the code never exercises). -/
def replaceAll (pat repl : Text) (s : Text) : Text :=
  replaceAllF pat repl s.length s

/-- Number of (possibly overlapping) start positions at which `pat` occurs
in `s`; `countOcc s [] = s.length + 1`. -/
def countOcc (s pat : Text) : Nat :=
  match s with
  | [] => if pat = [] then 1 else 0
  | _ :: r => (if pat <+: s then 1 else 0) + countOcc r pat

/-- Go `strings.Contains(s, pat)` as a proposition: `pat` is a contiguous
substring of `s`. -/
def containsStr (s pat : Text) : Prop := pat <:+: s

instance (s pat : Text) : Decidable (containsStr s pat) :=
  inferInstanceAs (Decidable (pat <:+: s))

/-- First element of Go `strings.Split(x, "\n")` (`Split` always returns at
least one element, so Go's `[0]` indexing is total). -/
def firstLine (s : Text) : Text := (splitLines s).headD []

/-- `wire.go` guard-string idiom:
`strings.Split(strings.TrimSpace(x), "\n")[0]`, re-trimmed at use sites via
`strings.TrimSpace(firstLine)`. -/
def guardLine (s : Text) : Text := trimSpace (firstLine (trimSpace s))

/-- `tabPrefixLines` from `wire.go`: add a leading tab to every non-empty
line. -/
def tabPrefixLines (s : Text) : Text :=
  List.intercalate (txt "\n") ((splitLines s).map fun l => if l = [] then l else '\t' :: l)

/-- The quote-extraction step of `wireGuardString`: Go
`line[start+1 : start+1+end]` between the first two double quotes, falling
back to the whole line when there is no quote pair. -/
def extractQuoted (line : Text) : Text :=
  let afterOpen := line.dropWhile (fun c => c ≠ '"')
  match afterOpen with
  | [] => line            -- no opening quote
  | _ :: inner =>
    if '"' ∈ inner then inner.takeWhile (fun c => c ≠ '"')
    else line             -- no closing quote

-- Sanity checks of the primitives on concrete data.
example : trimSpace (txt "  \tab c\n") = txt "ab c" := by decide
example : splitLines (txt "a\nb") = [txt "a", txt "b"] := by decide
example : replaceFirst (txt "b") (txt "XX") (txt "abcb") = txt "aXXcb" := by decide
example : replaceAll (txt "b") (txt "XX") (txt "abcb") = txt "aXXcXX" := by decide
example : countOcc (txt "abab") (txt "ab") = 2 := by decide
example : extractQuoted (txt "\t\"x/y\"") = txt "x/y" := by decide
example : tabPrefixLines (txt "a\n\nb") = txt "\ta\n\n\tb" := by decide

/-!
## Wiring data model (`internal/config/wiring.go`)

The `WireableModule` / `Bridge` structures and the registry, in the variant
that carries `MakefileEnv`, `MakefileEnvDisplay` and `RequiredModules`
(those are the fields `internal/scaffold/wire.go` reads).
-/

/-- `Bridge` from `internal/config/wiring.go`. -/
structure Bridge where
  RequiresModule : String
  ContainerImports : Text := []
  ContainerInit : Text := []
deriving DecidableEq, Repr

/-- `WireableModule` from `internal/config/wiring.go`.  All fragment fields
are Go strings, embedded as `Text`; absent fields default to the empty
string exactly as Go zero-values do. -/
structure WireableModule where
  Name : String
  ConfigFields : Text := []
  ConfigLoads : Text := []
  ContainerImports : Text := []
  ContainerFields : Text := []
  ModuleInit : Text := []
  BackgroundStart : Text := []
  ContainerHelpers : Text := []
  ServerImports : Text := []
  PublicRoutes : Text := []
  RouteRegistration : Text := []
  AuthMiddleware : Text := []
  MakefileEnv : Text := []
  MakefileEnvDisplay : Text := []
  GoDeps : List String := []
  RequiredModules : List String := []
  Bridges : List Bridge := []
deriving DecidableEq, Repr

/-! ### Marker tokens (`§6` of the spec; literal strings in `wire.go`). -/

def mConfigFields : Text := txt "// manifesto:config-fields"
def mConfigLoads : Text := txt "// manifesto:config-loads"
def mContainerImports : Text := txt "// manifesto:container-imports"
def mContainerFields : Text := txt "// manifesto:container-fields"
def mModuleInit : Text := txt "// manifesto:module-init"
def mBackgroundStart : Text := txt "// manifesto:background-start"
def mContainerHelpers : Text := txt "// manifesto:container-helpers"
def mServerImports : Text := txt "// manifesto:server-imports"
def mPublicRoutes : Text := txt "// manifesto:public-routes"
def mRouteRegistration : Text := txt "// manifesto:route-registration"
def mEnvConfig : Text := txt "# manifesto:env-config"
def mEnvDisplay : Text := txt "# manifesto:env-display"

/-- `wireGuardString` from `wire.go`: the first non-blank line of
`ContainerImports` (the import path between its double quotes when
present), else the trimmed first line of `ContainerFields`, else `""`. -/
def wireGuardString (spec : WireableModule) : Text :=
  match (if spec.ContainerImports ≠ [] then
           (splitLines spec.ContainerImports).find? (fun l => !(trimSpace l).isEmpty)
         else none) with
  | some line => extractQuoted (trimSpace line)
  | none =>
    if spec.ContainerFields ≠ [] then trimSpace (firstLine spec.ContainerFields)
    else []

/-! ### Per-file injection, as pure text transformers.

Each `inject*Text` function is the body of the corresponding `inject*`
function of `wire.go` between `os.ReadFile` and `os.WriteFile`. -/

/-- `injectWireConfig` (text part). -/
def injectWireConfigText (spec : WireableModule) (text : Text) : Text :=
  if spec.ConfigFields ≠ [] ∧ containsStr text (guardLine spec.ConfigFields) then text
  else
    let text := if spec.ConfigFields ≠ [] then
        replaceFirst mConfigFields (spec.ConfigFields ++ txt "\n\t" ++ mConfigFields) text
      else text
    let text := if spec.ConfigLoads ≠ [] then
        replaceFirst mConfigLoads (spec.ConfigLoads ++ txt "\n\t" ++ mConfigLoads) text
      else text
    text

/-- `injectWireContainer` (text part). -/
def injectWireContainerText (spec : WireableModule) (text : Text) : Text :=
  let guardStr := wireGuardString spec
  if guardStr ≠ [] ∧ containsStr text guardStr then text
  else
    let text := if spec.ContainerImports ≠ [] then
        replaceFirst mContainerImports (spec.ContainerImports ++ txt "\n\t" ++ mContainerImports) text
      else text
    let text := if spec.ContainerFields ≠ [] then
        replaceFirst mContainerFields (spec.ContainerFields ++ txt "\n\t" ++ mContainerFields) text
      else text
    let text := if spec.ModuleInit ≠ [] then
        replaceFirst mModuleInit (spec.ModuleInit ++ txt "\n\n\t" ++ mModuleInit) text
      else text
    let text := if spec.BackgroundStart ≠ [] then
        replaceFirst mBackgroundStart (spec.BackgroundStart ++ txt "\n\t" ++ mBackgroundStart) text
      else text
    let text := if spec.ContainerHelpers ≠ [] then
        replaceFirst mContainerHelpers (spec.ContainerHelpers ++ txt "\n\n" ++ mContainerHelpers) text
      else text
    text

/-- The literal `protected := app.Group("/api/v1")` pattern of
`injectWireServer`. -/
def oldGroupText : Text := txt "protected := app.Group(\"/api/v1\")"

/-- `injectWireServer` (text part). -/
def injectWireServerText (spec : WireableModule) (text : Text) : Text :=
  if spec.PublicRoutes ≠ [] ∧ containsStr text (guardLine spec.PublicRoutes) then text
  else
    let text := if spec.ServerImports ≠ [] then
        replaceFirst mServerImports (spec.ServerImports ++ txt "\n\t" ++ mServerImports) text
      else text
    let text := if spec.PublicRoutes ≠ [] then
        replaceFirst mPublicRoutes (spec.PublicRoutes ++ txt "\n\n\t" ++ mPublicRoutes) text
      else text
    let text :=
      if spec.RouteRegistration ≠ [] ∨ spec.AuthMiddleware ≠ [] then
        if ¬ containsStr text (txt "protected :=") then
          if spec.AuthMiddleware ≠ [] then
            replaceFirst mRouteRegistration
              (txt "\tprotected := app.Group(\"/api/v1\",\n\t\t" ++ spec.AuthMiddleware ++
                txt ",\n\t)\n\n\t" ++ mRouteRegistration) text
          else
            replaceFirst mRouteRegistration
              (txt "\tprotected := app.Group(\"/api/v1\")\n\n\t" ++ mRouteRegistration) text
        else if spec.AuthMiddleware ≠ [] ∧ ¬ containsStr text spec.AuthMiddleware then
          replaceFirst oldGroupText
            (txt "protected := app.Group(\"/api/v1\",\n\t\t" ++ spec.AuthMiddleware ++ txt ",\n\t)") text
        else text
      else text
    let text := if spec.RouteRegistration ≠ [] then
        replaceFirst mRouteRegistration (spec.RouteRegistration ++ txt "\n\n\t" ++ mRouteRegistration) text
      else text
    text

/-- `injectIntoMakefile` (text part). -/
def injectIntoMakefileText (spec : WireableModule) (text : Text) : Text :=
  if spec.MakefileEnv ≠ [] ∧ containsStr text (guardLine spec.MakefileEnv) then text
  else
    let text := if spec.MakefileEnv ≠ [] then
        replaceFirst mEnvConfig (spec.MakefileEnv ++ txt "\n\n" ++ mEnvConfig) text
      else text
    let text := if spec.MakefileEnvDisplay ≠ [] then
        replaceFirst ('\t' :: mEnvDisplay)
          (tabPrefixLines spec.MakefileEnvDisplay ++ txt "\n\t" ++ mEnvDisplay) text
      else text
    text

/-- `injectBridge` (text part). -/
def injectBridgeText (bridge : Bridge) (text : Text) : Text :=
  if containsStr text (guardLine bridge.ContainerInit) then text
  else
    let text := if bridge.ContainerImports ≠ [] then
        (splitLines bridge.ContainerImports).foldl
          (fun t rawLine =>
            let line := trimSpace rawLine
            if line ≠ [] ∧ ¬ containsStr t line then
              replaceFirst mContainerImports ('\t' :: line ++ txt "\n\t" ++ mContainerImports) t
            else t) text
      else text
    let text := if bridge.ContainerInit ≠ [] then
        replaceFirst mModuleInit (bridge.ContainerInit ++ txt "\n\n\t" ++ mModuleInit) text
      else text
    text

/-- `replacePlaceholders`' inner helper `r`: substitute `GOMODULE` then
`PROJECTNAME` placeholders. -/
def substText (goModule projectName : Text) (s : Text) : Text :=
  replaceAll (txt "\x7b\x7bPROJECTNAME\x7d\x7d") projectName
    (replaceAll (txt "\x7b\x7bGOMODULE\x7d\x7d") goModule s)

/-- `replaceBridgePlaceholders` from `wire.go`. -/
def replaceBridgePlaceholders (b : Bridge) (goModule projectName : Text) : Bridge :=
  { b with
    ContainerImports := substText goModule projectName b.ContainerImports
    ContainerInit := substText goModule projectName b.ContainerInit }

/-- `replacePlaceholders` from `wire.go` (note: `AuthMiddleware` is not
substituted there, and the bridges are substituted in place). -/
def replacePlaceholders (spec : WireableModule) (goModule projectName : Text) : WireableModule :=
  let r := substText goModule projectName
  { spec with
    ConfigFields := r spec.ConfigFields
    ConfigLoads := r spec.ConfigLoads
    ContainerImports := r spec.ContainerImports
    ContainerFields := r spec.ContainerFields
    ModuleInit := r spec.ModuleInit
    BackgroundStart := r spec.BackgroundStart
    ContainerHelpers := r spec.ContainerHelpers
    ServerImports := r spec.ServerImports
    PublicRoutes := r spec.PublicRoutes
    RouteRegistration := r spec.RouteRegistration
    MakefileEnv := r spec.MakefileEnv
    MakefileEnvDisplay := r spec.MakefileEnvDisplay
    Bridges := spec.Bridges.map fun b => replaceBridgePlaceholders b goModule projectName }

/-!
## The wireable module registry (`WireableModuleRegistry`)

Transcribed byte-for-byte from `internal/config/wiring.go`; the Go map is
modelled as an association list (only keyed lookup is ever performed on
it, so iteration order is irrelevant).
-/

/-- The bridge declared by `jobx`, triggered by `notifx`. -/
def bridge_jobx_notifx : Bridge := {
  RequiresModule := "notifx"
  ContainerImports := txt "\t\"\x7b\x7bGOMODULE\x7d\x7d/pkg/notifx\""
  ContainerInit := txt "\tc.Dispatcher.Register(\"notifx:send_email\", notifx.SendEmailHandler(c.NotificationService))"
}

/-- The bridge declared by `notifx`, triggered by `jobx`. -/
def bridge_notifx_jobx : Bridge := {
  RequiresModule := "jobx"
  ContainerImports := txt "\t\"\x7b\x7bGOMODULE\x7d\x7d/pkg/notifx\""
  ContainerInit := txt "\tc.Dispatcher.Register(\"notifx:send_email\", notifx.SendEmailHandler(c.NotificationService))"
}

/-- `WireableModuleRegistry["fsx"]` from `internal/config/wiring.go`. -/
def spec_fsx : WireableModule := {
  Name := "fsx"
  ContainerImports := txt "\t\"\x7b\x7bGOMODULE\x7d\x7d/pkg/fsx\"\n\t\"\x7b\x7bGOMODULE\x7d\x7d/pkg/fsx/fsxlocal\"\n\t\"\x7b\x7bGOMODULE\x7d\x7d/pkg/fsx/fsxs3\"\n\tawsConfig \"github.com/aws/aws-sdk-go-v2/config\"\n\t\"github.com/aws/aws-sdk-go-v2/service/s3\""
  ContainerFields := txt "\tFileSystem fsx.FileSystem\n\tS3Client   *s3.Client"
  ModuleInit := txt "\tc.initFileStorage()"
  ContainerHelpers := txt "func (c *Container) initFileStorage() \x7b\n\tstorageMode := getEnv(\"STORAGE_MODE\", \"local\")\n\n\tswitch storageMode \x7b\n\tcase \"s3\":\n\t\tawsRegion := getEnv(\"AWS_REGION\", \"us-east-1\")\n\t\tawsBucket := getEnv(\"AWS_BUCKET\", \"\x7b\x7bPROJECTNAME\x7d\x7d-uploads\")\n\n\t\tcfg, err := awsConfig.LoadDefaultConfig(context.TODO(), awsConfig.WithRegion(awsRegion))\n\t\tif err != nil \x7b\n\t\t\tlogx.Fatalf(\"Unable to load AWS SDK config: %v\", err)\n\t\t\x7d\n\t\tc.S3Client = s3.NewFromConfig(cfg)\n\t\tc.FileSystem = fsxs3.NewS3FileSystem(c.S3Client, awsBucket, \"\")\n\t\tlogx.Infof(\"  S3 file system configured (bucket: %s, region: %s)\", awsBucket, awsRegion)\n\n\tcase \"local\":\n\t\tuploadDir := getEnv(\"UPLOAD_DIR\", \"./uploads\")\n\t\tlocalFS, err := fsxlocal.NewLocalFileSystem(uploadDir)\n\t\tif err != nil \x7b\n\t\t\tlogx.Fatalf(\"Failed to initialize local file system: %v\", err)\n\t\t\x7d\n\t\tc.FileSystem = localFS\n\t\tlogx.Infof(\"  Local file system configured (path: %s)\", localFS.GetBasePath())\n\n\tdefault:\n\t\tlogx.Fatalf(\"Unknown STORAGE_MODE: %s (use \x27local\x27 or \x27s3\x27)\", storageMode)\n\t\x7d\n\x7d"
  MakefileEnv := txt "# ==========\x3d=========\x3d=========\x3d=========\x3d=========\x3d=========\x3d=========\x3d=====\n# Environment Variables - Storage Configuration\n# ==========\x3d=========\x3d=========\x3d=========\x3d=========\x3d=========\x3d=========\x3d=====\n\nexport STORAGE_MODE = local\nexport UPLOAD_DIR = ./uploads\nexport AWS_REGION = us-east-1\nexport AWS_BUCKET = \x7b\x7bPROJECTNAME\x7d\x7d-uploads"
  MakefileEnvDisplay := txt "@echo \"Storage:\"\n@echo \"  MODE:              $(STORAGE_MODE)\"\n@echo \"  UPLOAD_DIR:        $(UPLOAD_DIR)\"\n@echo \"\""
  GoDeps := ["github.com/aws/aws-sdk-go-v2/config", "github.com/aws/aws-sdk-go-v2/service/s3"]
  RequiredModules := ["fsx"]
}

/-- `WireableModuleRegistry["asyncx"]` from `internal/config/wiring.go`. -/
def spec_asyncx : WireableModule := {
  Name := "asyncx"
  RequiredModules := ["asyncx"]
}

/-- `WireableModuleRegistry["ai"]` from `internal/config/wiring.go`. -/
def spec_ai : WireableModule := {
  Name := "ai"
  RequiredModules := ["ai", "fsx"]
}

/-- `WireableModuleRegistry["jobx"]` from `internal/config/wiring.go`. -/
def spec_jobx : WireableModule := {
  Name := "jobx"
  ContainerImports := txt "\t\"\x7b\x7bGOMODULE\x7d\x7d/pkg/asyncx\""
  ContainerFields := txt "\tDispatcher *asyncx.Dispatcher"
  ModuleInit := txt "\tc.Dispatcher = asyncx.NewDispatcher(c.Redis, logx.DefaultLogger())"
  BackgroundStart := txt "\tc.Dispatcher.Start(ctx)"
  RequiredModules := ["jobx", "asyncx"]
  Bridges := [bridge_jobx_notifx]
}

/-- `WireableModuleRegistry["notifx"]` from `internal/config/wiring.go`. -/
def spec_notifx : WireableModule := {
  Name := "notifx"
  ConfigFields := txt "\tEmail EmailConfig"
  ConfigLoads := txt "\tcfg.Email = loadEmailConfig()"
  ContainerImports := txt "\t\"\x7b\x7bGOMODULE\x7d\x7d/pkg/notifx\"\n\t\"\x7b\x7bGOMODULE\x7d\x7d/pkg/notifx/notifxses\""
  ContainerFields := txt "\tNotificationService notifx.NotificationService"
  ModuleInit := txt "\tc.NotificationService = notifxses.NewSESNotifier(c.Config.Email.AWSRegion)"
  MakefileEnv := txt "# ==========\x3d=========\x3d=========\x3d=========\x3d=========\x3d=========\x3d=========\x3d=====\n# Environment Variables - Email Configuration\n# ==========\x3d=========\x3d=========\x3d=========\x3d=========\x3d=========\x3d=========\x3d=====\n\nexport EMAIL_PROVIDER = ses\nexport EMAIL_FROM_ADDRESS = noreply@\x7b\x7bPROJECTNAME\x7d\x7d.com\nexport EMAIL_FROM_NAME = \x7b\x7bPROJECTNAME\x7d\x7d\n\n# SMTP Configuration (if using SMTP)\nexport SMTP_HOST =\nexport SMTP_PORT = 587\nexport SMTP_USERNAME =\nexport SMTP_PASSWORD =\n\n# AWS SES Configuration\nexport AWS_SES_REGION = us-east-1"
  MakefileEnvDisplay := txt "@echo \"Email:\"\n@echo \"  PROVIDER:          $(EMAIL_PROVIDER)\"\n@echo \"  FROM:              $(EMAIL_FROM_ADDRESS)\"\n@echo \"\""
  GoDeps := ["github.com/aws/aws-sdk-go-v2/service/sesv2"]
  RequiredModules := ["notifx"]
  Bridges := [bridge_notifx_jobx]
}

/-- `WireableModuleRegistry["iam"]` from `internal/config/wiring.go`. -/
def spec_iam : WireableModule := {
  Name := "iam"
  ConfigFields := txt "\tJWT           JWTConfig\n\tSession       SessionConfig\n\tOTP           OTPConfig\n\tOAuth         OAuthConfig\n\tCookie        CookieConfig\n\tInvitation    InvitationConfig\n\tPasswordReset PasswordResetConfig\n\tAPIKey        APIKeyConfig\n\tTenant        TenantConfig"
  ConfigLoads := txt "\tcfg.JWT = loadJWTConfig()\n\tcfg.Session = loadSessionConfig()\n\tcfg.OTP = loadOTPConfig()\n\tcfg.OAuth = loadOAuthConfig()\n\tcfg.Cookie = loadCookieConfig()\n\tcfg.Invitation = loadInvitationConfig()\n\tcfg.PasswordReset = loadPasswordResetConfig()\n\tcfg.APIKey = loadAPIKeyConfig()\n\tcfg.Tenant = loadTenantConfig()"
  ContainerImports := txt "\t\"\x7b\x7bGOMODULE\x7d\x7d/pkg/iam/iamcontainer\""
  ContainerFields := txt "\tIAM *iamcontainer.Container"
  ModuleInit := txt "\tc.IAM = iamcontainer.New(iamcontainer.Deps\x7b\n\t\tDB:          c.DB,\n\t\tRedis:       c.Redis,\n\t\tCfg:         c.Config,\n\t\tOTPNotifier: NewConsoleNotifier(),\n\t\x7d)"
  BackgroundStart := txt "\tc.IAM.StartBackgroundServices(ctx)"
  ContainerHelpers := txt "// ConsoleNotifier implements the NotificationService interface\n// by printing OTP codes to the terminal/console\ntype ConsoleNotifier struct\x7b\x7d\n\n// NewConsoleNotifier creates a new console-based OTP notifier\nfunc NewConsoleNotifier() *ConsoleNotifier \x7b\n\treturn &ConsoleNotifier\x7b\x7d\n\x7d\n\n// SendOTP prints the OTP code to the terminal\nfunc (n *ConsoleNotifier) SendOTP(ctx context.Context, contact string, code string) error \x7b\n\tfmt.Println(\"\\n\" + repeatString(\"=\", 60))\n\tfmt.Println(\"📧 OTP NOTIFICATION (Console Output)\")\n\tfmt.Println(repeatString(\"=\", 60))\n\tfmt.Printf(\"📨 To: %s\\n\", contact)\n\tfmt.Printf(\"🔐 Code: %s\\n\", code)\n\tfmt.Println(repeatString(\"=\", 60))\n\tfmt.Println(\"⚠️  This is console output for development only\")\n\tfmt.Println(\"⚠️  In production, configure email service in config\")\n\tfmt.Println(repeatString(\"=\", 60) + \"\\n\")\n\n\tlogx.Infof(\"📧 OTP sent to %s: %s\", contact, code)\n\treturn nil\n\x7d"
  PublicRoutes := txt "\t// IAM Routes\n\tcontainer.IAM.OAuthHandlers.RegisterRoutes(app)\n\tlogx.Info(\"  > OAuth routes registered\")\n\n\tcontainer.IAM.PasswordlessHandlers.RegisterRoutes(app)\n\tlogx.Info(\"  > Passwordless auth routes registered\")"
  RouteRegistration := txt "\tcontainer.IAM.APIKeyHandlers.RegisterRoutes(protected, container.IAM.UnifiedAuthMiddleware)\n\tlogx.Info(\"  > API key routes registered\")\n\n\tcontainer.IAM.InvitationHandlers.RegisterRoutes(protected, container.IAM.UnifiedAuthMiddleware)\n\tlogx.Info(\"  > Invitation routes registered\")"
  AuthMiddleware := txt "container.IAM.UnifiedAuthMiddleware.Authenticate()"
  MakefileEnv := txt "# ==========\x3d=========\x3d=========\x3d=========\x3d=========\x3d=========\x3d=========\x3d=====\n# Environment Variables - JWT Configuration\n# ==========\x3d=========\x3d=========\x3d=========\x3d=========\x3d=========\x3d=========\x3d=====\n\nexport JWT_SECRET_KEY = development-supersecret-key-must-be-at-least-32-characters-long-change-in-prod\nexport JWT_ACCESS_TOKEN_TTL = 15m\nexport JWT_REFRESH_TOKEN_TTL = 168h\nexport JWT_ISSUER = \x7b\x7bPROJECTNAME\x7d\x7d\nexport JWT_AUDIENCE = \x7b\x7bPROJECTNAME\x7d\x7d-api,\x7b\x7bPROJECTNAME\x7d\x7d-web\n\n# ==========\x3d=========\x3d=========\x3d=========\x3d=========\x3d=========\x3d=========\x3d=====\n# Environment Variables - API Key Configuration\n# ==========\x3d=========\x3d=========\x3d=========\x3d=========\x3d=========\x3d=========\x3d=====\n\nexport API_KEY_LIVE_PREFIX = \x7b\x7bPROJECTNAME\x7d\x7d_live\nexport API_KEY_TEST_PREFIX = \x7b\x7bPROJECTNAME\x7d\x7d_test\nexport API_KEY_TOKEN_LENGTH = 32\n\n# ==========\x3d=========\x3d=========\x3d=========\x3d=========\x3d=========\x3d=========\x3d=====\n# Environment Variables - Session Configuration\n# ==========\x3d=========\x3d=========\x3d=========\x3d=========\x3d=========\x3d=========\x3d=====\n\nexport SESSION_EXPIRATION_TIME = 24h\nexport SESSION_CLEANUP_INTERVAL = 1h\nexport SESSION_MAX_PER_USER = 10\n\n# ==========\x3d=========\x3d=========\x3d=========\x3d=========\x3d=========\x3d=========\x3d=====\n# Environment Variables - OTP Configuration\n# ==========\x3d=========\x3d=========\x3d=========\x3d=========\x3d=========\x3d=========\x3d=====\n\nexport OTP_CODE_LENGTH = 6\nexport OTP_EXPIRATION_TIME = 10m\nexport OTP_MAX_ATTEMPTS = 5\nexport OTP_RATE_LIMIT_WINDOW = 1m\nexport OTP_TOKEN_BYTE_LENGTH = 3\n\n# ==========\x3d=========\x3d=========\x3d=========\x3d=========\x3d=========\x3d=========\x3d=====\n# Environment Variables - Invitation Configuration\n# ==========\x3d=========\x3d=========\x3d=========\x3d=========\x3d=========\x3d=========\x3d=====\n\nexport INVITATION_DEFAULT_EXPIRATION_DAYS = 7\nexport INVITATION_TOKEN_BYTE_LENGTH = 32\nexport INVITATION_MAX_PENDING_PER_TENANT = 100\n\n# ==========\x3d=========\x3d=========\x3d=========\x3d=========\x3d=========\x3d=========\x3d=====\n# Environment Variables - Password Configuration\n# ==========\x3d=========\x3d=========\x3d=========\x3d=========\x3d=========\x3d=========\x3d=====\n\nexport PASSWORD_RESET_TOKEN_BYTE_LENGTH = 32\nexport PASSWORD_RESET_EXPIRATION_TIME = 1h\nexport PASSWORD_RESET_RATE_LIMIT_WINDOW = 15m\nexport PASSWORD_RESET_MAX_ATTEMPTS = 3\nexport BCRYPT_COST = 10\n\n# ==========\x3d=========\x3d=========\x3d=========\x3d=========\x3d=========\x3d=========\x3d=====\n# Environment Variables - Cookie Configuration\n# ==========\x3d=========\x3d=========\x3d=========\x3d=========\x3d=========\x3d=========\x3d=====\n\nexport COOKIE_ACCESS_TOKEN_NAME = access_token\nexport COOKIE_REFRESH_TOKEN_NAME = refresh_token\nexport COOKIE_DOMAIN =\nexport COOKIE_PATH = /\nexport COOKIE_SECURE = false\nexport COOKIE_HTTP_ONLY = true\nexport COOKIE_SAME_SITE = Lax\n\n# ==========\x3d=========\x3d=========\x3d=========\x3d=========\x3d=========\x3d=========\x3d=====\n# Environment Variables - OAuth Configuration\n# ==========\x3d=========\x3d=========\x3d=========\x3d=========\x3d=========\x3d=========\x3d=====\n\n# Google OAuth\nexport OAUTH_GOOGLE_ENABLED = false\nexport OAUTH_GOOGLE_CLIENT_ID =\nexport OAUTH_GOOGLE_CLIENT_SECRET =\nexport OAUTH_GOOGLE_REDIRECT_URL = http://localhost:5173/auth/callback/?provider=google\nexport OAUTH_GOOGLE_SCOPES = openid,email,profile\nexport OAUTH_GOOGLE_AUTH_URL = https://accounts.google.com/o/oauth2/auth\nexport OAUTH_GOOGLE_TOKEN_URL = https://oauth2.googleapis.com/token\nexport OAUTH_GOOGLE_USER_INFO_URL = https://www.googleapis.com/oauth2/v2/userinfo\nexport OAUTH_GOOGLE_TIMEOUT = 30s\n\n# Microsoft OAuth\nexport OAUTH_MICROSOFT_ENABLED = false\nexport OAUTH_MICROSOFT_CLIENT_ID =\nexport OAUTH_MICROSOFT_CLIENT_SECRET =\nexport OAUTH_MICROSOFT_REDIRECT_URL = http://localhost:$(SERVER_PORT)/auth/callback/microsoft\nexport OAUTH_MICROSOFT_SCOPES = openid,email,profile,User.Read\nexport OAUTH_MICROSOFT_AUTH_URL = https://login.microsoftonline.com/common/oauth2/v2.0/authorize\nexport OAUTH_MICROSOFT_TOKEN_URL = https://login.microsoftonline.com/common/oauth2/v2.0/token\nexport OAUTH_MICROSOFT_USER_INFO_URL = https://graph.microsoft.com/v1.0/me\nexport OAUTH_MICROSOFT_TIMEOUT = 30s\n\n# OAuth State Manager\nexport OAUTH_STATE_MANAGER_TYPE = redis\nexport OAUTH_STATE_TTL = 10m\n\n# ==========\x3d=========\x3d=========\x3d=========\x3d=========\x3d=========\x3d=========\x3d=====\n# Environment Variables - Tenant Configuration\n# ==========\x3d=========\x3d=========\x3d=========\x3d=========\x3d=========\x3d=========\x3d=====\n\nexport TENANT_TRIAL_DAYS = 30\nexport TENANT_SUBSCRIPTION_YEARS = 1\nexport TENANT_MAX_USERS_BASIC = 5\nexport TENANT_MAX_USERS_PROFESSIONAL = 50\nexport TENANT_MAX_USERS_ENTERPRISE = 500"
  MakefileEnvDisplay := txt "@echo \"JWT:\"\n@echo \"  ISSUER:            $(JWT_ISSUER)\"\n@echo \"  ACCESS_TTL:        $(JWT_ACCESS_TOKEN_TTL)\"\n@echo \"  REFRESH_TTL:       $(JWT_REFRESH_TOKEN_TTL)\"\n@echo \"\"\n@echo \"OAuth:\"\n@echo \"  GOOGLE:            $(OAUTH_GOOGLE_ENABLED)\"\n@echo \"  MICROSOFT:         $(OAUTH_MICROSOFT_ENABLED)\"\n@echo \"  STATE_MANAGER:     $(OAUTH_STATE_MANAGER_TYPE)\"\n@echo \"\""
  RequiredModules := ["iam", "migrations"]
}

/-- `WireableModuleRegistry` as an association list. -/
def WireableModuleRegistry : List (String × WireableModule) :=
  [("fsx", spec_fsx), ("asyncx", spec_asyncx), ("ai", spec_ai),
   ("jobx", spec_jobx), ("notifx", spec_notifx), ("iam", spec_iam)]

/-- `IsWireableModule` from `wiring.go`. -/
def IsWireableModule (name : String) : Bool :=
  (WireableModuleRegistry.lookup name).isSome

/-!
## Project file state and `WireModule` (`internal/scaffold/wire.go`)

The four generated files a wiring operation can touch are modelled as
optional texts (`none` = the file does not exist).  Each file-level
`inject*` returns `Except`, mirroring the Go error paths:
`injectWireConfig` / `injectWireContainer` / `injectWireServer` /
`injectBridge` fail when their file is missing, while
`injectIntoMakefile` silently succeeds (`wire.go` returns `nil` when the
Makefile cannot be read).
-/

/-- The four target files of a wiring operation. -/
structure ProjFiles where
  configGo : Option Text
  containerGo : Option Text
  serverGo : Option Text
  makefile : Option Text
deriving DecidableEq, Repr

def injectWireConfig (spec : WireableModule) (st : ProjFiles) : Except String ProjFiles :=
  match st.configGo with
  | none => .error "read config.go"
  | some t => .ok { st with configGo := some (injectWireConfigText spec t) }

def injectWireContainer (spec : WireableModule) (st : ProjFiles) : Except String ProjFiles :=
  match st.containerGo with
  | none => .error "read container.go"
  | some t => .ok { st with containerGo := some (injectWireContainerText spec t) }

def injectWireServer (spec : WireableModule) (st : ProjFiles) : Except String ProjFiles :=
  match st.serverGo with
  | none => .error "read server.go"
  | some t => .ok { st with serverGo := some (injectWireServerText spec t) }

def injectIntoMakefile (spec : WireableModule) (st : ProjFiles) : Except String ProjFiles :=
  match st.makefile with
  | none => .ok st   -- "Makefile might not exist"
  | some t => .ok { st with makefile := some (injectIntoMakefileText spec t) }

def injectBridge (bridge : Bridge) (st : ProjFiles) : Except String ProjFiles :=
  match st.containerGo with
  | none => .error "read container.go for bridge"
  | some t => .ok { st with containerGo := some (injectBridgeText bridge t) }

/-- `WireOptions` from `wire.go` (`ProjectRoot` is subsumed by passing the
`ProjFiles` state explicitly). -/
structure WireOptions where
  ModuleName : String
  GoModule : Text
  ProjectName : Text
  WiredModules : List String

/-- `hasWiredModule` from `wire.go`. -/
def hasWiredModule (wired : List String) (name : String) : Bool :=
  wired.contains name

/-- `WireModule` from `wire.go`.  Returns the new file state and the list
of modified files.  Step 6 of the Go code (`installGoDeps`) shells out to
`go get`, which neither reads nor writes any of the four target files, so
it leaves `ProjFiles` unchanged and is omitted from the state transition.
-/
def WireModule (reg : List (String × WireableModule)) (opts : WireOptions)
    (st : ProjFiles) : Except String (ProjFiles × List String) :=
  match reg.lookup opts.ModuleName with
  | none => .error "unknown wireable module"
  | some spec0 =>
    let spec := replacePlaceholders spec0 opts.GoModule opts.ProjectName
    do
      -- 1. pkg/config/config.go
      let (st, modified) ←
        if spec.ConfigFields ≠ [] ∨ spec.ConfigLoads ≠ [] then
          (injectWireConfig spec st).map fun st' => (st', ["pkg/config/config.go"])
        else pure (st, [])
      -- 2. cmd/container.go (unconditional)
      let st ← injectWireContainer spec st
      let modified := modified ++ ["cmd/container.go"]
      -- 3. cmd/server.go
      let (st, modified) ←
        if spec.PublicRoutes ≠ [] ∨ spec.RouteRegistration ≠ [] ∨
            spec.AuthMiddleware ≠ [] ∨ spec.ServerImports ≠ [] then
          (injectWireServer spec st).map fun st' => (st', modified ++ ["cmd/server.go"])
        else pure (st, modified)
      -- 4. Makefile
      let (st, modified) ←
        if spec.MakefileEnv ≠ [] ∨ spec.MakefileEnvDisplay ≠ [] then
          (injectIntoMakefile spec st).map fun st' => (st', modified ++ ["Makefile"])
        else pure (st, modified)
      -- 5. cross-module bridges
      let st ← spec.Bridges.foldlM
        (fun st bridge =>
          if hasWiredModule opts.WiredModules bridge.RequiresModule then
            injectBridge (replaceBridgePlaceholders bridge opts.GoModule opts.ProjectName) st
          else pure st) st
      -- 6. installGoDeps: external `go get`, no effect on the four files
      pure (st, modified)

/-!
## Fresh project files

`internal/templates/project/*.tmpl` is not part of the sources under
review; per the spec (§3 **ExtensionPoint**, §6) each generated file
carries its marker tokens exactly once.  The following concrete texts are
used as representative freshly-generated files.
-/

/-- Modelled from the spec: `project/container.go.tmpl` (not in src); a
freshly generated `cmd/container.go` carries each container marker token
exactly once (§3 **ExtensionPoint**, §6). -/
def freshContainerGo : Text := txt
  "import (\n\t// manifesto:container-imports\n)\n\ntype Container struct \x7b\n\t// manifesto:container-fields\n\x7d\n\nfunc initModules() \x7b\n\t// manifesto:module-init\n\x7d\n\nfunc start() \x7b\n\t// manifesto:background-start\n\x7d\n\n// manifesto:container-helpers\n"

/-- Modelled from the spec: `project/server.go.tmpl` (not in src); a
freshly generated `cmd/server.go` carries each server marker token exactly
once (§6). -/
def freshServerGo : Text := txt
  "import (\n\t// manifesto:server-imports\n)\n\nfunc run() \x7b\n\t// manifesto:public-routes\n\n\t// manifesto:route-registration\n\x7d\n"

/-- Modelled from the spec: the fetched `pkg/config/config.go` after the
one-time preparation pass (§4.3) carries the two config markers. -/
def freshConfigGo : Text := txt
  "type Config struct \x7b\n\t// manifesto:config-fields\n\x7d\n\nfunc Load() \x7b\n\t// manifesto:config-loads\n\n\treturn cfg\n\x7d\n"

/-- Modelled from the spec: `project/makefile.tmpl` (not in src); a
freshly generated `Makefile` carries the two build markers exactly once
(§6), the display marker tab-indented inside a recipe. -/
def freshMakefile : Text := txt
  "run:\n\tgo run ./cmd\n\n# manifesto:env-config\n\nenv:\n\t# manifesto:env-display\n"

/-- A freshly generated project's four files. -/
def freshFiles : ProjFiles :=
  { configGo := some freshConfigGo
    containerGo := some freshContainerGo
    serverGo := some freshServerGo
    makefile := some freshMakefile }

/-!
## Decomposition of `WireModule` into per-file text transformers

`WireModule` touches the four files independently; the following step
functions package the per-file conditional transformations, and
`WireModule_ok` proves that a `WireModule` call on present files reduces
to them.  This is both the workhorse for the idempotence/frame proofs and
the way concrete runs are evaluated in bounded steps.
-/

/-- Effect of `WireModule` step 1 on the config text. -/
def wireConfigStep (spec : WireableModule) (t : Text) : Text :=
  if spec.ConfigFields ≠ [] ∨ spec.ConfigLoads ≠ [] then injectWireConfigText spec t else t

/-- Effect of `WireModule` step 3 on the server text. -/
def wireServerStep (spec : WireableModule) (t : Text) : Text :=
  if spec.PublicRoutes ≠ [] ∨ spec.RouteRegistration ≠ [] ∨
      spec.AuthMiddleware ≠ [] ∨ spec.ServerImports ≠ [] then
    injectWireServerText spec t
  else t

/-- Effect of `WireModule` step 4 on the Makefile text. -/
def wireMakefileStep (spec : WireableModule) (t : Text) : Text :=
  if spec.MakefileEnv ≠ [] ∨ spec.MakefileEnvDisplay ≠ [] then injectIntoMakefileText spec t else t

/-- Effect of `WireModule` step 5 (bridge evaluation) on the container
text. -/
def bridgesFold (bridges : List Bridge) (wired : List String) (goModule projectName : Text)
    (t : Text) : Text :=
  bridges.foldl
    (fun t b =>
      if hasWiredModule wired b.RequiresModule then
        injectBridgeText (replaceBridgePlaceholders b goModule projectName) t
      else t) t

/-- Combined effect of steps 2 and 5 on the container text. -/
def wireContainerStep (spec : WireableModule) (wired : List String)
    (goModule projectName : Text) (t : Text) : Text :=
  bridgesFold spec.Bridges wired goModule projectName (injectWireContainerText spec t)

/-- The modified-files list `WireModule` reports for a given
(substituted) spec. -/
def wireMods (spec : WireableModule) : List String :=
  (if spec.ConfigFields ≠ [] ∨ spec.ConfigLoads ≠ [] then ["pkg/config/config.go"] else []) ++
  ["cmd/container.go"] ++
  (if spec.PublicRoutes ≠ [] ∨ spec.RouteRegistration ≠ [] ∨
      spec.AuthMiddleware ≠ [] ∨ spec.ServerImports ≠ [] then ["cmd/server.go"] else []) ++
  (if spec.MakefileEnv ≠ [] ∨ spec.MakefileEnvDisplay ≠ [] then ["Makefile"] else [])

theorem bridges_foldlM_ok (wired : List String) (gm pn : Text) :
    ∀ (bridges : List Bridge) (st : ProjFiles) (t : Text), st.containerGo = some t →
      (bridges.foldlM (m := Except String)
        (fun st bridge =>
          if hasWiredModule wired bridge.RequiresModule then
            injectBridge (replaceBridgePlaceholders bridge gm pn) st
          else Except.ok st) st) =
      .ok { st with containerGo := some (bridgesFold bridges wired gm pn t) } := by
  intro bridges
  induction bridges with
  | nil =>
    intro st t ht
    obtain ⟨c, k, s, m⟩ := st
    simp only [ProjFiles.containerGo] at ht
    subst ht
    rfl
  | cons b bs ih =>
    intro st t ht
    rw [List.foldlM_cons]
    by_cases hw : hasWiredModule wired b.RequiresModule
    · simp only [hw, if_true]
      have hone : injectBridge (replaceBridgePlaceholders b gm pn) st =
          .ok { st with containerGo := some (injectBridgeText (replaceBridgePlaceholders b gm pn) t) } := by
        unfold injectBridge
        rw [ht]
      rw [hone]
      show (bs.foldlM _ _) = _
      rw [ih _ (injectBridgeText (replaceBridgePlaceholders b gm pn) t) rfl]
      simp only [bridgesFold, List.foldl_cons, hw, if_true]
    · simp only [hw, if_false]
      show (bs.foldlM _ st) = _
      rw [ih st t ht]
      simp [bridgesFold, List.foldl_cons, hw]

/-- A `WireModule` call on a project whose four target files all exist
succeeds and acts file-wise through the step transformers. -/
theorem WireModule_ok (reg : List (String × WireableModule)) (name : String)
    (gm pn : Text) (wired : List String) (spec0 : WireableModule) (tc tk ts tm : Text)
    (hlook : reg.lookup name = some spec0) :
    WireModule reg ⟨name, gm, pn, wired⟩ ⟨some tc, some tk, some ts, some tm⟩ =
      .ok (⟨some (wireConfigStep (replacePlaceholders spec0 gm pn) tc),
            some (wireContainerStep (replacePlaceholders spec0 gm pn) wired gm pn tk),
            some (wireServerStep (replacePlaceholders spec0 gm pn) ts),
            some (wireMakefileStep (replacePlaceholders spec0 gm pn) tm)⟩,
           wireMods (replacePlaceholders spec0 gm pn)) := by
  set spec := replacePlaceholders spec0 gm pn with hspec
  unfold WireModule
  show (match reg.lookup name with
        | none => Except.error "unknown wireable module"
        | some spec0 => _) = _
  rw [hlook]
  simp only [← hspec]
  by_cases h1 : spec.ConfigFields ≠ [] ∨ spec.ConfigLoads ≠ [] <;>
    by_cases h3 : spec.PublicRoutes ≠ [] ∨ spec.RouteRegistration ≠ [] ∨
      spec.AuthMiddleware ≠ [] ∨ spec.ServerImports ≠ [] <;>
    by_cases h4 : spec.MakefileEnv ≠ [] ∨ spec.MakefileEnvDisplay ≠ [] <;>
    simp only [h1, h3, h4, if_true, if_false, reduceIte, injectWireConfig,
      injectWireContainer, injectWireServer, injectIntoMakefile, Except.map,
      bind, Except.bind, pure, Except.pure] <;>
    rw [bridges_foldlM_ok wired gm pn
      spec.Bridges _ (injectWireContainerText spec tk) rfl] <;>
    simp only [wireConfigStep, wireContainerStep, wireServerStep, wireMakefileStep,
      wireMods, h1, h3, h4, if_true, if_false, reduceIte, List.append_nil,
      List.nil_append, List.singleton_append]

/-!
## Claim C3 — bridge order independence

Concrete runs of `WireModule` for the mutual `jobx`/`notifx` bridge pair
(the only such pair in the registry) on a fresh project, with
representative project identifiers.  The intermediate texts are spelled
out verbatim so that every step is checked by `decide` in bounded depth.
-/

set_option maxRecDepth 40000

/-- Representative target Go module path. -/
def acmeGo : Text := txt "github.com/acme/app"

/-- Representative project name. -/
def acmeName : Text := txt "myapp"

def lit_kJ : Text := txt "import (\n\t\t\"github.com/acme/app/pkg/asyncx\"\n\t// manifesto:container-imports\n)\n\ntype Container struct \x7b\n\t\tDispatcher *asyncx.Dispatcher\n\t// manifesto:container-fields\n\x7d\n\nfunc initModules() \x7b\n\t\tc.Dispatcher = asyncx.NewDispatcher(c.Redis, logx.DefaultLogger())\n\n\t// manifesto:module-init\n\x7d\n\nfunc start() \x7b\n\t\tc.Dispatcher.Start(ctx)\n\t// manifesto:background-start\n\x7d\n\n// manifesto:container-helpers\n"
def lit_kJb : Text := txt "import (\n\t\t\"github.com/acme/app/pkg/asyncx\"\n\t// manifesto:container-imports\n)\n\ntype Container struct \x7b\n\t\tDispatcher *asyncx.Dispatcher\n\t// manifesto:container-fields\n\x7d\n\nfunc initModules() \x7b\n\t\tc.Dispatcher = asyncx.NewDispatcher(c.Redis, logx.DefaultLogger())\n\n\t// manifesto:module-init\n\x7d\n\nfunc start() \x7b\n\t\tc.Dispatcher.Start(ctx)\n\t// manifesto:background-start\n\x7d\n\n// manifesto:container-helpers\n"
def lit_kJN_mid : Text := txt "import (\n\t\t\"github.com/acme/app/pkg/asyncx\"\n\t\t\"github.com/acme/app/pkg/notifx\"\n\t\"github.com/acme/app/pkg/notifx/notifxses\"\n\t// manifesto:container-imports\n)\n\ntype Container struct \x7b\n\t\tDispatcher *asyncx.Dispatcher\n\t\tNotificationService notifx.NotificationService\n\t// manifesto:container-fields\n\x7d\n\nfunc initModules() \x7b\n\t\tc.Dispatcher = asyncx.NewDispatcher(c.Redis, logx.DefaultLogger())\n\n\t\tc.NotificationService = notifxses.NewSESNotifier(c.Config.Email.AWSRegion)\n\n\t// manifesto:module-init\n\x7d\n\nfunc start() \x7b\n\t\tc.Dispatcher.Start(ctx)\n\t// manifesto:background-start\n\x7d\n\n// manifesto:container-helpers\n"
def lit_kJN : Text := txt "import (\n\t\t\"github.com/acme/app/pkg/asyncx\"\n\t\t\"github.com/acme/app/pkg/notifx\"\n\t\"github.com/acme/app/pkg/notifx/notifxses\"\n\t// manifesto:container-imports\n)\n\ntype Container struct \x7b\n\t\tDispatcher *asyncx.Dispatcher\n\t\tNotificationService notifx.NotificationService\n\t// manifesto:container-fields\n\x7d\n\nfunc initModules() \x7b\n\t\tc.Dispatcher = asyncx.NewDispatcher(c.Redis, logx.DefaultLogger())\n\n\t\tc.NotificationService = notifxses.NewSESNotifier(c.Config.Email.AWSRegion)\n\n\t\tc.Dispatcher.Register(\"notifx:send_email\", notifx.SendEmailHandler(c.NotificationService))\n\n\t// manifesto:module-init\n\x7d\n\nfunc start() \x7b\n\t\tc.Dispatcher.Start(ctx)\n\t// manifesto:background-start\n\x7d\n\n// manifesto:container-helpers\n"
def lit_cfgN : Text := txt "type Config struct \x7b\n\t\tEmail EmailConfig\n\t// manifesto:config-fields\n\x7d\n\nfunc Load() \x7b\n\t\tcfg.Email = loadEmailConfig()\n\t// manifesto:config-loads\n\n\treturn cfg\n\x7d\n"
def lit_mkN : Text := txt "run:\n\tgo run ./cmd\n\n# ==========\x3d=========\x3d=========\x3d=========\x3d=========\x3d=========\x3d=========\x3d=====\n# Environment Variables - Email Configuration\n# ==========\x3d=========\x3d=========\x3d=========\x3d=========\x3d=========\x3d=========\x3d=====\n\nexport EMAIL_PROVIDER = ses\nexport EMAIL_FROM_ADDRESS = noreply@myapp.com\nexport EMAIL_FROM_NAME = myapp\n\n# SMTP Configuration (if using SMTP)\nexport SMTP_HOST =\nexport SMTP_PORT = 587\nexport SMTP_USERNAME =\nexport SMTP_PASSWORD =\n\n# AWS SES Configuration\nexport AWS_SES_REGION = us-east-1\n\n# manifesto:env-config\n\nenv:\n\t@echo \"Email:\"\n\t@echo \"  PROVIDER:          $(EMAIL_PROVIDER)\"\n\t@echo \"  FROM:              $(EMAIL_FROM_ADDRESS)\"\n\t@echo \"\"\n\t# manifesto:env-display\n"
def lit_kN : Text := txt "import (\n\t\t\"github.com/acme/app/pkg/notifx\"\n\t\"github.com/acme/app/pkg/notifx/notifxses\"\n\t// manifesto:container-imports\n)\n\ntype Container struct \x7b\n\t\tNotificationService notifx.NotificationService\n\t// manifesto:container-fields\n\x7d\n\nfunc initModules() \x7b\n\t\tc.NotificationService = notifxses.NewSESNotifier(c.Config.Email.AWSRegion)\n\n\t// manifesto:module-init\n\x7d\n\nfunc start() \x7b\n\t// manifesto:background-start\n\x7d\n\n// manifesto:container-helpers\n"
def lit_kNJ_mid : Text := txt "import (\n\t\t\"github.com/acme/app/pkg/notifx\"\n\t\"github.com/acme/app/pkg/notifx/notifxses\"\n\t\t\"github.com/acme/app/pkg/asyncx\"\n\t// manifesto:container-imports\n)\n\ntype Container struct \x7b\n\t\tNotificationService notifx.NotificationService\n\t\tDispatcher *asyncx.Dispatcher\n\t// manifesto:container-fields\n\x7d\n\nfunc initModules() \x7b\n\t\tc.NotificationService = notifxses.NewSESNotifier(c.Config.Email.AWSRegion)\n\n\t\tc.Dispatcher = asyncx.NewDispatcher(c.Redis, logx.DefaultLogger())\n\n\t// manifesto:module-init\n\x7d\n\nfunc start() \x7b\n\t\tc.Dispatcher.Start(ctx)\n\t// manifesto:background-start\n\x7d\n\n// manifesto:container-helpers\n"
def lit_kNJ : Text := txt "import (\n\t\t\"github.com/acme/app/pkg/notifx\"\n\t\"github.com/acme/app/pkg/notifx/notifxses\"\n\t\t\"github.com/acme/app/pkg/asyncx\"\n\t// manifesto:container-imports\n)\n\ntype Container struct \x7b\n\t\tNotificationService notifx.NotificationService\n\t\tDispatcher *asyncx.Dispatcher\n\t// manifesto:container-fields\n\x7d\n\nfunc initModules() \x7b\n\t\tc.NotificationService = notifxses.NewSESNotifier(c.Config.Email.AWSRegion)\n\n\t\tc.Dispatcher = asyncx.NewDispatcher(c.Redis, logx.DefaultLogger())\n\n\t\tc.Dispatcher.Register(\"notifx:send_email\", notifx.SendEmailHandler(c.NotificationService))\n\n\t// manifesto:module-init\n\x7d\n\nfunc start() \x7b\n\t\tc.Dispatcher.Start(ctx)\n\t// manifesto:background-start\n\x7d\n\n// manifesto:container-helpers\n"

/-- The bridge initialization fragment both `jobx` and `notifx` declare
(it carries no placeholder). -/
def bridgeInitLine : Text := txt "\tc.Dispatcher.Register(\"notifx:send_email\", notifx.SendEmailHandler(c.NotificationService))"

/-- Wiring `jobx` into a fresh project. -/
theorem run_jobx_fresh :
    WireModule WireableModuleRegistry ⟨"jobx", acmeGo, acmeName, []⟩ freshFiles =
      .ok (⟨some freshConfigGo, some lit_kJ, some freshServerGo, some freshMakefile⟩,
           ["cmd/container.go"]) := by
  rw [show freshFiles = (⟨some freshConfigGo, some freshContainerGo, some freshServerGo,
        some freshMakefile⟩ : ProjFiles) from rfl]
  rw [WireModule_ok WireableModuleRegistry "jobx" acmeGo acmeName [] spec_jobx _ _ _ _ (by rfl)]
  have hc : wireConfigStep (replacePlaceholders spec_jobx acmeGo acmeName) freshConfigGo =
      freshConfigGo := by decide
  have hk : wireContainerStep (replacePlaceholders spec_jobx acmeGo acmeName) [] acmeGo acmeName
      freshContainerGo = lit_kJ := by decide
  have hs : wireServerStep (replacePlaceholders spec_jobx acmeGo acmeName) freshServerGo =
      freshServerGo := by decide
  have hm : wireMakefileStep (replacePlaceholders spec_jobx acmeGo acmeName) freshMakefile =
      freshMakefile := by decide
  have hmods : wireMods (replacePlaceholders spec_jobx acmeGo acmeName) =
      ["cmd/container.go"] := by decide
  rw [hc, hk, hs, hm, hmods]

/-- Wiring `notifx` second, with `jobx` already wired: its bridge fires. -/
theorem run_notifx_after_jobx :
    WireModule WireableModuleRegistry ⟨"notifx", acmeGo, acmeName, ["jobx"]⟩
      ⟨some freshConfigGo, some lit_kJ, some freshServerGo, some freshMakefile⟩ =
      .ok (⟨some lit_cfgN, some lit_kJN, some freshServerGo, some lit_mkN⟩,
           ["pkg/config/config.go", "cmd/container.go", "Makefile"]) := by
  rw [WireModule_ok WireableModuleRegistry "notifx" acmeGo acmeName ["jobx"] spec_notifx _ _ _ _ (by rfl)]
  have hc : wireConfigStep (replacePlaceholders spec_notifx acmeGo acmeName) freshConfigGo =
      lit_cfgN := by decide
  have hk : wireContainerStep (replacePlaceholders spec_notifx acmeGo acmeName) ["jobx"]
      acmeGo acmeName lit_kJ = lit_kJN := by
    have h1 : injectWireContainerText (replacePlaceholders spec_notifx acmeGo acmeName) lit_kJ =
        lit_kJN_mid := by decide
    have h2 : bridgesFold (replacePlaceholders spec_notifx acmeGo acmeName).Bridges ["jobx"]
        acmeGo acmeName lit_kJN_mid = lit_kJN := by decide
    show bridgesFold _ _ _ _ (injectWireContainerText _ _) = _
    rw [h1, h2]
  have hs : wireServerStep (replacePlaceholders spec_notifx acmeGo acmeName) freshServerGo =
      freshServerGo := by decide
  have hm : wireMakefileStep (replacePlaceholders spec_notifx acmeGo acmeName) freshMakefile =
      lit_mkN := by decide
  have hmods : wireMods (replacePlaceholders spec_notifx acmeGo acmeName) =
      ["pkg/config/config.go", "cmd/container.go", "Makefile"] := by decide
  rw [hc, hk, hs, hm, hmods]

/-- Wiring `notifx` into a fresh project alone: no bridge fires. -/
theorem run_notifx_fresh :
    WireModule WireableModuleRegistry ⟨"notifx", acmeGo, acmeName, []⟩ freshFiles =
      .ok (⟨some lit_cfgN, some lit_kN, some freshServerGo, some lit_mkN⟩,
           ["pkg/config/config.go", "cmd/container.go", "Makefile"]) := by
  rw [show freshFiles = (⟨some freshConfigGo, some freshContainerGo, some freshServerGo,
        some freshMakefile⟩ : ProjFiles) from rfl]
  rw [WireModule_ok WireableModuleRegistry "notifx" acmeGo acmeName [] spec_notifx _ _ _ _ (by rfl)]
  have hc : wireConfigStep (replacePlaceholders spec_notifx acmeGo acmeName) freshConfigGo =
      lit_cfgN := by decide
  have hk : wireContainerStep (replacePlaceholders spec_notifx acmeGo acmeName) [] acmeGo acmeName
      freshContainerGo = lit_kN := by decide
  have hs : wireServerStep (replacePlaceholders spec_notifx acmeGo acmeName) freshServerGo =
      freshServerGo := by decide
  have hm : wireMakefileStep (replacePlaceholders spec_notifx acmeGo acmeName) freshMakefile =
      lit_mkN := by decide
  have hmods : wireMods (replacePlaceholders spec_notifx acmeGo acmeName) =
      ["pkg/config/config.go", "cmd/container.go", "Makefile"] := by decide
  rw [hc, hk, hs, hm, hmods]

/-- Wiring `jobx` second, with `notifx` already wired: `jobx`'s own bridge
fires. -/
theorem run_jobx_after_notifx :
    WireModule WireableModuleRegistry ⟨"jobx", acmeGo, acmeName, ["notifx"]⟩
      ⟨some lit_cfgN, some lit_kN, some freshServerGo, some lit_mkN⟩ =
      .ok (⟨some lit_cfgN, some lit_kNJ, some freshServerGo, some lit_mkN⟩,
           ["cmd/container.go"]) := by
  rw [WireModule_ok WireableModuleRegistry "jobx" acmeGo acmeName ["notifx"] spec_jobx _ _ _ _ (by rfl)]
  have hc : wireConfigStep (replacePlaceholders spec_jobx acmeGo acmeName) lit_cfgN =
      lit_cfgN := by decide
  have hk : wireContainerStep (replacePlaceholders spec_jobx acmeGo acmeName) ["notifx"]
      acmeGo acmeName lit_kN = lit_kNJ := by
    have h1 : injectWireContainerText (replacePlaceholders spec_jobx acmeGo acmeName) lit_kN =
        lit_kNJ_mid := by decide
    have h2 : bridgesFold (replacePlaceholders spec_jobx acmeGo acmeName).Bridges ["notifx"]
        acmeGo acmeName lit_kNJ_mid = lit_kNJ := by decide
    show bridgesFold _ _ _ _ (injectWireContainerText _ _) = _
    rw [h1, h2]
  have hs : wireServerStep (replacePlaceholders spec_jobx acmeGo acmeName) freshServerGo =
      freshServerGo := by decide
  have hm : wireMakefileStep (replacePlaceholders spec_jobx acmeGo acmeName) lit_mkN =
      lit_mkN := by decide
  have hmods : wireMods (replacePlaceholders spec_jobx acmeGo acmeName) =
      ["cmd/container.go"] := by decide
  rw [hc, hk, hs, hm, hmods]

/-- Claim C3. For the two wireable modules that declare a mutual bridge
(`jobx` and `notifx`, the only such pair in the registry), wiring `jobx`
then `notifx` and wiring `notifx` then `jobx` on a fresh project both
leave exactly one copy of the bridge's initialization fragment in
`cmd/container.go`; wiring either module alone (the other never in the
wired set) leaves no bridge fragment in any of the four files. -/
theorem C3_bridge_fires_exactly_once_order_independent :
    (WireModule WireableModuleRegistry ⟨"jobx", acmeGo, acmeName, []⟩ freshFiles =
        .ok (⟨some freshConfigGo, some lit_kJ, some freshServerGo, some freshMakefile⟩,
             ["cmd/container.go"]) ∧
      WireModule WireableModuleRegistry ⟨"notifx", acmeGo, acmeName, ["jobx"]⟩
        ⟨some freshConfigGo, some lit_kJ, some freshServerGo, some freshMakefile⟩ =
        .ok (⟨some lit_cfgN, some lit_kJN, some freshServerGo, some lit_mkN⟩,
             ["pkg/config/config.go", "cmd/container.go", "Makefile"]) ∧
      countOcc lit_kJN bridgeInitLine = 1) ∧
    (WireModule WireableModuleRegistry ⟨"notifx", acmeGo, acmeName, []⟩ freshFiles =
        .ok (⟨some lit_cfgN, some lit_kN, some freshServerGo, some lit_mkN⟩,
             ["pkg/config/config.go", "cmd/container.go", "Makefile"]) ∧
      WireModule WireableModuleRegistry ⟨"jobx", acmeGo, acmeName, ["notifx"]⟩
        ⟨some lit_cfgN, some lit_kN, some freshServerGo, some lit_mkN⟩ =
        .ok (⟨some lit_cfgN, some lit_kNJ, some freshServerGo, some lit_mkN⟩,
             ["cmd/container.go"]) ∧
      countOcc lit_kNJ bridgeInitLine = 1) ∧
    (countOcc lit_kJ bridgeInitLine = 0 ∧ countOcc lit_kN bridgeInitLine = 0 ∧
      countOcc lit_cfgN bridgeInitLine = 0 ∧ countOcc lit_mkN bridgeInitLine = 0 ∧
      countOcc freshServerGo bridgeInitLine = 0 ∧ countOcc freshConfigGo bridgeInitLine = 0 ∧
      countOcc freshMakefile bridgeInitLine = 0) := by
  refine ⟨⟨run_jobx_fresh, run_notifx_after_jobx, by decide⟩,
          ⟨run_notifx_fresh, run_jobx_after_notifx, by decide⟩,
          by decide, by decide, by decide, by decide, by decide, by decide, by decide⟩

/-!
## Claim C1 (counterexample part) and Claim C7

`cexFiles` is a project state whose `cmd/container.go` exists and carries
the `module-init` marker but not the `container-imports` marker: the
guard string is then never written into the file, and a second wiring of
`jobx` duplicates its `ModuleInit` fragment.
-/

/-- A container file carrying only the `module-init` marker. -/
def cexContainer : Text := txt "func initModules() \x7b\n\t// manifesto:module-init\n\x7d\n"

/-- `cexFiles`: all four target files exist. -/
def cexFiles : ProjFiles :=
  ⟨some freshConfigGo, some cexContainer, some freshServerGo, some freshMakefile⟩

def lit_cex1 : Text := txt "func initModules() \x7b\n\t\tc.Dispatcher = asyncx.NewDispatcher(c.Redis, logx.DefaultLogger())\n\n\t// manifesto:module-init\n\x7d\n"

def lit_cex2 : Text := txt "func initModules() \x7b\n\t\tc.Dispatcher = asyncx.NewDispatcher(c.Redis, logx.DefaultLogger())\n\n\t\tc.Dispatcher = asyncx.NewDispatcher(c.Redis, logx.DefaultLogger())\n\n\t// manifesto:module-init\n\x7d\n"

/-- Claim C1, counterexample.  `jobx` is a wireable module; `cexFiles` is a
project whose four target files all exist; both `WireModule` calls use
the same `GoModule`, `ProjectName` and wired set; yet the second call
leaves `cmd/container.go` different from its content after the first
call (the `ModuleInit` fragment is injected twice, because the guard
line was never written into the imports — its marker is absent). -/
theorem C1_counterexample_duplicate_module_init :
    WireModule WireableModuleRegistry ⟨"jobx", acmeGo, acmeName, []⟩ cexFiles =
      .ok (⟨some freshConfigGo, some lit_cex1, some freshServerGo, some freshMakefile⟩,
           ["cmd/container.go"]) ∧
    WireModule WireableModuleRegistry ⟨"jobx", acmeGo, acmeName, []⟩
      ⟨some freshConfigGo, some lit_cex1, some freshServerGo, some freshMakefile⟩ =
      .ok (⟨some freshConfigGo, some lit_cex2, some freshServerGo, some freshMakefile⟩,
           ["cmd/container.go"]) ∧
    lit_cex2 ≠ lit_cex1 := by
  have hc : wireConfigStep (replacePlaceholders spec_jobx acmeGo acmeName) freshConfigGo =
      freshConfigGo := by decide
  have hs : wireServerStep (replacePlaceholders spec_jobx acmeGo acmeName) freshServerGo =
      freshServerGo := by decide
  have hm : wireMakefileStep (replacePlaceholders spec_jobx acmeGo acmeName) freshMakefile =
      freshMakefile := by decide
  have hmods : wireMods (replacePlaceholders spec_jobx acmeGo acmeName) =
      ["cmd/container.go"] := by decide
  refine ⟨?_, ?_, by decide⟩
  · rw [show cexFiles = (⟨some freshConfigGo, some cexContainer, some freshServerGo,
        some freshMakefile⟩ : ProjFiles) from rfl]
    rw [WireModule_ok WireableModuleRegistry "jobx" acmeGo acmeName [] spec_jobx _ _ _ _ (by rfl)]
    have hk : wireContainerStep (replacePlaceholders spec_jobx acmeGo acmeName) [] acmeGo
        acmeName cexContainer = lit_cex1 := by decide
    rw [hc, hk, hs, hm, hmods]
  · rw [WireModule_ok WireableModuleRegistry "jobx" acmeGo acmeName [] spec_jobx _ _ _ _ (by rfl)]
    have hk : wireContainerStep (replacePlaceholders spec_jobx acmeGo acmeName) [] acmeGo
        acmeName lit_cex1 = lit_cex2 := by decide
    rw [hc, hk, hs, hm, hmods]

/-- Claim C7, counterexample.  `asyncx` declares no fragment at all — in
particular none for any container extension point — yet `WireModule`
still reads and rewrites `cmd/container.go` and reports it in the
modified-files list. -/
theorem C7_counterexample_container_always_reported :
    WireModule WireableModuleRegistry ⟨"asyncx", acmeGo, acmeName, []⟩ freshFiles =
      .ok (freshFiles, ["cmd/container.go"]) ∧
    spec_asyncx.ContainerImports = [] ∧ spec_asyncx.ContainerFields = [] ∧
    spec_asyncx.ModuleInit = [] ∧ spec_asyncx.BackgroundStart = [] ∧
    spec_asyncx.ContainerHelpers = [] ∧ spec_asyncx.Bridges = [] := by
  refine ⟨?_, by decide, by decide, by decide, by decide, by decide, by decide⟩
  rw [show freshFiles = (⟨some freshConfigGo, some freshContainerGo, some freshServerGo,
        some freshMakefile⟩ : ProjFiles) from rfl]
  rw [WireModule_ok WireableModuleRegistry "asyncx" acmeGo acmeName [] spec_asyncx _ _ _ _ (by rfl)]
  have hc : wireConfigStep (replacePlaceholders spec_asyncx acmeGo acmeName) freshConfigGo =
      freshConfigGo := by decide
  have hk : wireContainerStep (replacePlaceholders spec_asyncx acmeGo acmeName) [] acmeGo acmeName
      freshContainerGo = freshContainerGo := by decide
  have hs : wireServerStep (replacePlaceholders spec_asyncx acmeGo acmeName) freshServerGo =
      freshServerGo := by decide
  have hm : wireMakefileStep (replacePlaceholders spec_asyncx acmeGo acmeName) freshMakefile =
      freshMakefile := by decide
  have hmods : wireMods (replacePlaceholders spec_asyncx acmeGo acmeName) =
      ["cmd/container.go"] := by decide
  rw [hc, hk, hs, hm, hmods]

/-- Membership in a conditional singleton/empty list forces the
condition. -/
theorem mem_ite_nil {α : Type} {x : α} {c : Prop} [Decidable c] {a : List α}
    (h : x ∈ (if c then a else [])) : c ∧ x ∈ a := by
  by_cases hc : c
  · rw [if_pos hc] at h
    exact ⟨hc, h⟩
  · rw [if_neg hc] at h
    cases h

/-- Claim C7, amended.  In a single `WireModule` operation on existing
target files, the config, server and Makefile surfaces are each read and
written only if the (substituted) module declares a non-empty fragment
for one of that file's extension points, and are absent from the
modified-files list otherwise; the dependency-assembly file
`cmd/container.go`, however, is processed and reported as modified
unconditionally. -/
theorem C7_amended_surfaces_guarded_except_container
    (reg : List (String × WireableModule)) (name : String) (gm pn : Text)
    (wired : List String) (spec0 : WireableModule) (tc tk ts tm : Text)
    (hlook : reg.lookup name = some spec0) :
    ∃ st mods, WireModule reg ⟨name, gm, pn, wired⟩ ⟨some tc, some tk, some ts, some tm⟩ =
        .ok (st, mods) ∧
      "cmd/container.go" ∈ mods ∧
      (((replacePlaceholders spec0 gm pn).ConfigFields = [] ∧
          (replacePlaceholders spec0 gm pn).ConfigLoads = []) →
        st.configGo = some tc ∧ "pkg/config/config.go" ∉ mods) ∧
      (((replacePlaceholders spec0 gm pn).PublicRoutes = [] ∧
          (replacePlaceholders spec0 gm pn).RouteRegistration = [] ∧
          (replacePlaceholders spec0 gm pn).AuthMiddleware = [] ∧
          (replacePlaceholders spec0 gm pn).ServerImports = []) →
        st.serverGo = some ts ∧ "cmd/server.go" ∉ mods) ∧
      (((replacePlaceholders spec0 gm pn).MakefileEnv = [] ∧
          (replacePlaceholders spec0 gm pn).MakefileEnvDisplay = []) →
        st.makefile = some tm ∧ "Makefile" ∉ mods) := by
  refine ⟨_, _, WireModule_ok reg name gm pn wired spec0 tc tk ts tm hlook, ?_, ?_, ?_, ?_⟩
  · simp [wireMods]
  · rintro ⟨h1, h2⟩
    refine ⟨by simp [wireConfigStep, h1, h2], ?_⟩
    simp only [wireMods]
    intro hmem
    simp only [List.mem_append] at hmem
    rcases hmem with ((h | h) | h) | h
    · exact absurd (mem_ite_nil h).1 (by simp [h1, h2])
    · simp at h
    · have := (mem_ite_nil h).2; simp at this
    · have := (mem_ite_nil h).2; simp at this
  · rintro ⟨h1, h2, h3, h4⟩
    refine ⟨by simp [wireServerStep, h1, h2, h3, h4], ?_⟩
    simp only [wireMods]
    intro hmem
    simp only [List.mem_append] at hmem
    rcases hmem with ((h | h) | h) | h
    · have := (mem_ite_nil h).2; simp at this
    · simp at h
    · exact absurd (mem_ite_nil h).1 (by simp [h1, h2, h3, h4])
    · have := (mem_ite_nil h).2; simp at this
  · rintro ⟨h1, h2⟩
    refine ⟨by simp [wireMakefileStep, h1, h2], ?_⟩
    simp only [wireMods]
    intro hmem
    simp only [List.mem_append] at hmem
    rcases hmem with ((h | h) | h) | h
    · have := (mem_ite_nil h).2; simp at this
    · simp at h
    · have := (mem_ite_nil h).2; simp at this
    · exact absurd (mem_ite_nil h).1 (by simp [h1, h2])

/-- Witness for `C7_amended_surfaces_guarded_except_container` at the
`asyncx` module on a fresh project. -/
theorem C7_amended_witness :
    ∃ st mods, WireModule WireableModuleRegistry ⟨"asyncx", acmeGo, acmeName, []⟩
        ⟨some freshConfigGo, some freshContainerGo, some freshServerGo, some freshMakefile⟩ =
        .ok (st, mods) ∧
      "cmd/container.go" ∈ mods ∧
      (((replacePlaceholders spec_asyncx acmeGo acmeName).ConfigFields = [] ∧
          (replacePlaceholders spec_asyncx acmeGo acmeName).ConfigLoads = []) →
        st.configGo = some freshConfigGo ∧ "pkg/config/config.go" ∉ mods) ∧
      (((replacePlaceholders spec_asyncx acmeGo acmeName).PublicRoutes = [] ∧
          (replacePlaceholders spec_asyncx acmeGo acmeName).RouteRegistration = [] ∧
          (replacePlaceholders spec_asyncx acmeGo acmeName).AuthMiddleware = [] ∧
          (replacePlaceholders spec_asyncx acmeGo acmeName).ServerImports = []) →
        st.serverGo = some freshServerGo ∧ "cmd/server.go" ∉ mods) ∧
      (((replacePlaceholders spec_asyncx acmeGo acmeName).MakefileEnv = [] ∧
          (replacePlaceholders spec_asyncx acmeGo acmeName).MakefileEnvDisplay = []) →
        st.makefile = some freshMakefile ∧ "Makefile" ∉ mods) :=
  C7_amended_surfaces_guarded_except_container WireableModuleRegistry "asyncx" acmeGo acmeName []
    spec_asyncx freshConfigGo freshContainerGo freshServerGo freshMakefile (by rfl)

/-!
## Module registry and dependency resolver (`internal/config/manifest.go`)

`ResolveDeps` is a depth-first traversal with a visited set.  The Go
recursion terminates because each recursive call happens only on a name
not yet in `seen`; here this is made explicit by a fuel parameter, with
`resolveFuel` computing a bound that always suffices (proved in
`ResolveDeps_fuel_stable`).
-/

/-- `Module` from `internal/config/manifest.go`. -/
structure Module where
  Name : String
  Description : String := ""
  Paths : List String := []
  Deps : List String := []
  Core : Bool := false
deriving DecidableEq, Repr

/-- `ModuleRegistry` from `internal/config/manifest.go`, as an association
list (Go map; only keyed lookup is performed by `ResolveDeps`). -/
def ModuleRegistry : List (String × Module) :=
  [("kernel", { Name := "kernel", Description := "Domain primitives, value objects, pagination, UoW",
                Paths := ["pkg/kernel"], Core := true }),
   ("errx", { Name := "errx", Description := "Structured error handling with HTTP mapping",
              Paths := ["pkg/errx"], Core := true }),
   ("logx", { Name := "logx", Description := "Structured logging (console/JSON)",
              Paths := ["pkg/logx"], Core := true }),
   ("ptrx", { Name := "ptrx", Description := "Pointer utility helpers",
              Paths := ["pkg/ptrx"], Core := true }),
   ("asyncx", { Name := "asyncx", Description := "Async primitives: futures, fan-out, pools, retry, timeout",
                Paths := ["pkg/asyncx"], Core := true }),
   ("config", { Name := "config", Description := "Environment-driven configuration",
                Paths := ["pkg/config"], Core := true }),
   ("server", { Name := "server", Description := "Server, container, Makefile, docker-compose (templated)",
                Paths := [], Core := true }),
   ("migrations", { Name := "migrations", Description := "Database migration scaffolding",
                    Paths := ["migrations"], Core := true }),
   ("iam", { Name := "iam", Description := "Auth, users, tenants, scopes, API keys",
             Paths := ["pkg/iam"], Core := true }),
   ("fsx", { Name := "fsx", Description := "File system abstraction (local, S3)",
             Paths := ["pkg/fsx"], Deps := ["errx"] }),
   ("ai", { Name := "ai", Description := "LLM, embeddings, vector store, OCR, speech",
            Paths := ["pkg/ai"], Deps := ["errx", "fsx"] })]

/-- Declared dependencies of a name: `mod.Deps` when the registry knows
the name, `[]` otherwise (the Go `if mod, ok := ...` guard). -/
def depsOf (reg : List (String × Module)) (n : String) : List String :=
  match reg.lookup n with
  | some m => m.Deps
  | none => []

/-- Resolver state: the `seen` set (as the list of marked names, in
marking order) and the `result` slice. -/
abbrev RState := List String × List String

/-- One `resolve(name)` call of `ResolveDeps`, fuel-indexed.  With enough
fuel (more than the number of unseen reachable names) the `0` case is
never taken. -/
def resolveOne (reg : List (String × Module)) : Nat → String → RState → RState
  | 0, _, st => st
  | f + 1, name, st =>
    if name ∈ st.1 then st
    else
      let st1 : RState := (st.1 ++ [name], st.2)
      let st2 := (depsOf reg name).foldl (fun s d => resolveOne reg f d s) st1
      (st2.1, st2.2 ++ [name])

/-- Sufficient fuel for `ResolveDeps reg names`: one more than the number
of name occurrences that can ever be marked. -/
def resolveFuel (reg : List (String × Module)) (names : List String) : Nat :=
  names.length + ((reg.map fun p => p.2.Deps).flatten).length + 1

/-- `ResolveDeps` from `internal/config/manifest.go`. -/
def ResolveDeps (reg : List (String × Module)) (names : List String) : List String :=
  (names.foldl (fun st n => resolveOne reg (resolveFuel reg names) n st) ([], [])).2

example : ResolveDeps ModuleRegistry ["ai"] = ["errx", "fsx", "ai"] := by decide
example : ResolveDeps ModuleRegistry ["fsx", "ai"] = ["errx", "fsx", "ai"] := by decide

/-! ### The name universe and the decreasing measure -/

/-- Every name the traversal can mark: the requested names plus every
declared dependency occurring in the registry. -/
def univNames (reg : List (String × Module)) (names : List String) : List String :=
  names ++ (reg.map fun p => p.2.Deps).flatten

/-- Number of not-yet-seen names of `U`. -/
def meas (U seen : List String) : Nat :=
  (U.dedup.filter fun x => decide (x ∉ seen)).length

theorem filter_len_mono {α : Type} (l : List α) (p q : α → Bool)
    (h : ∀ x, p x = true → q x = true) :
    (l.filter p).length ≤ (l.filter q).length := by
  induction l with
  | nil => simp
  | cons a l ih =>
    by_cases hp : p a
    · rw [List.filter_cons_of_pos hp, List.filter_cons_of_pos (h a hp)]
      simpa using ih
    · rw [List.filter_cons_of_neg hp]
      by_cases hq : q a
      · rw [List.filter_cons_of_pos hq]
        exact Nat.le_succ_of_le ih
      · rw [List.filter_cons_of_neg hq]
        exact ih

theorem filter_len_strict {α : Type} (l : List α) (p q : α → Bool) (n : α)
    (hn : n ∈ l) (hp : p n = false) (hq : q n = true)
    (h : ∀ x, p x = true → q x = true) :
    (l.filter p).length < (l.filter q).length := by
  induction l with
  | nil => cases hn
  | cons a l ih =>
    rcases List.mem_cons.mp hn with rfl | hn'
    · rw [List.filter_cons_of_neg (by simp [hp]), List.filter_cons_of_pos hq]
      simpa using Nat.lt_succ_of_le (filter_len_mono l p q h)
    · by_cases hpa : p a
      · rw [List.filter_cons_of_pos hpa, List.filter_cons_of_pos (h a hpa)]
        simpa using ih hn'
      · rw [List.filter_cons_of_neg hpa]
        by_cases hqa : q a
        · rw [List.filter_cons_of_pos hqa]
          exact Nat.lt_succ_of_lt (ih hn')
        · rw [List.filter_cons_of_neg hqa]
          exact ih hn'

theorem meas_mono (U : List String) {seen seen' : List String}
    (h : ∀ x, x ∈ seen → x ∈ seen') : meas U seen' ≤ meas U seen := by
  refine filter_len_mono _ _ _ fun x hx => ?_
  simp only [decide_eq_true_eq] at hx ⊢
  exact fun hmem => hx (h x hmem)

theorem meas_mark (U : List String) {seen : List String} {n : String}
    (hU : n ∈ U) (hn : n ∉ seen) : meas U (seen ++ [n]) < meas U seen := by
  refine filter_len_strict _ _ _ n (List.mem_dedup.mpr hU) ?_ ?_ ?_
  · simp
  · simpa using hn
  · intro x hx
    simp only [decide_eq_true_eq, List.mem_append] at hx ⊢
    exact fun hmem => hx (Or.inl hmem)

theorem meas_pos (U : List String) {seen : List String} {n : String}
    (hU : n ∈ U) (hn : n ∉ seen) : 0 < meas U seen := by
  have : n ∈ U.dedup.filter fun x => decide (x ∉ seen) := by
    simp [List.mem_dedup.mpr hU, hn]
  unfold meas
  exact List.length_pos.mpr (List.ne_nil_of_mem this)

/-- A successful association-list lookup exhibits a member pair. -/
theorem lookup_mem {β : Type} (reg : List (String × β)) {n : String} {m : β}
    (h : reg.lookup n = some m) : (n, m) ∈ reg := by
  induction reg with
  | nil => cases h
  | cons p rest ih =>
    rw [List.lookup] at h
    by_cases he : n == p.1
    · rw [he] at h
      obtain ⟨k, v⟩ := p
      cases h
      have : n = k := by
        simpa using he
      subst this
      exact List.mem_cons_self _ _
    · have hf : (n == p.1) = false := by
        simpa using he
      rw [hf] at h
      exact List.mem_cons_of_mem _ (ih h)

theorem depsOf_sub_univ (reg : List (String × Module)) (names : List String) :
    ∀ n d, d ∈ depsOf reg n → d ∈ univNames reg names := by
  intro n d hd
  unfold depsOf at hd
  unfold univNames
  rcases hlook : reg.lookup n with _ | m
  · rw [hlook] at hd
    cases hd
  · rw [hlook] at hd
    refine List.mem_append.mpr (Or.inr ?_)
    have hmem : (n, m) ∈ reg := lookup_mem reg hlook
    refine List.mem_flatten.mpr ⟨m.Deps, ?_, hd⟩
    exact List.mem_map.mpr ⟨(n, m), hmem, rfl⟩

/-! ### What one completed `resolve` call does to the state -/

/-- `Ext U st st'`: `st'` extends `st` by a pack `Δ` of fresh names, each
appended to the result and marked seen, nothing else changed. -/
def Ext (U : List String) (st st' : RState) : Prop :=
  ∃ Δ : List String,
    st'.2 = st.2 ++ Δ ∧
    (∀ x, x ∈ st'.1 ↔ x ∈ st.1 ∨ x ∈ Δ) ∧
    (∀ x ∈ Δ, x ∉ st.1) ∧
    Δ.Nodup ∧ (∀ x ∈ Δ, x ∈ U)

theorem Ext_self (U : List String) (st : RState) : Ext U st st :=
  ⟨[], by simp, by simp, by simp, by simp, by simp⟩

theorem Ext_seen_sub {U : List String} {st st' : RState} (h : Ext U st st') :
    ∀ x ∈ st.1, x ∈ st'.1 := by
  obtain ⟨Δ, _, hs, _⟩ := h
  exact fun x hx => (hs x).mpr (Or.inl hx)

theorem Ext_trans {U : List String} {st st1 st2 : RState}
    (h1 : Ext U st st1) (h2 : Ext U st1 st2) : Ext U st st2 := by
  obtain ⟨Δ₁, ha1, hs1, hd1, hn1, hU1⟩ := h1
  obtain ⟨Δ₂, ha2, hs2, hd2, hn2, hU2⟩ := h2
  refine ⟨Δ₁ ++ Δ₂, by rw [ha2, ha1, List.append_assoc], ?_, ?_, ?_, ?_⟩
  · intro x
    rw [hs2 x, hs1 x, List.mem_append]
    tauto
  · intro x hx
    rcases List.mem_append.mp hx with hx | hx
    · exact hd1 x hx
    · intro hmem
      exact hd2 x hx ((hs1 x).mpr (Or.inl hmem))
  · refine List.Nodup.append hn1 hn2 ?_
    intro x hx1 hx2
    exact hd2 x hx2 ((hs1 x).mpr (Or.inr hx1))
  · intro x hx
    rcases List.mem_append.mp hx with hx | hx
    · exact hU1 x hx
    · exact hU2 x hx

/-- Folding a step with the `Ext` property over a list of `U`-names. -/
theorem foldl_ext (U : List String) (k : Nat) (step : String → RState → RState)
    (hstep : ∀ n st, n ∈ U → meas U st.1 ≤ k →
      Ext U st (step n st) ∧ n ∈ (step n st).1) :
    ∀ (l : List String) (st : RState), (∀ n ∈ l, n ∈ U) → meas U st.1 ≤ k →
      Ext U st (l.foldl (fun s d => step d s) st) ∧
      ∀ n ∈ l, n ∈ (l.foldl (fun s d => step d s) st).1 := by
  intro l
  induction l with
  | nil =>
    intro st _ _
    exact ⟨Ext_self U st, by simp⟩
  | cons d ds ih =>
    intro st hl hm
    obtain ⟨h1, hd1⟩ := hstep d st (hl d (by simp)) hm
    have hm1 : meas U (step d st).1 ≤ k :=
      le_trans (meas_mono U (Ext_seen_sub h1)) hm
    obtain ⟨h2, hcov⟩ := ih (step d st) (fun n hn => hl n (by simp [hn])) hm1
    simp only [List.foldl_cons]
    refine ⟨Ext_trans h1 h2, ?_⟩
    intro n hn
    rcases List.mem_cons.mp hn with rfl | hn'
    · exact Ext_seen_sub h2 n hd1
    · exact hcov n hn'

/-- One `resolve` call: with sufficient fuel it extends the state by a
fresh `Δ`, the name ends up seen, a seen name is a no-op, and an unseen
name lands in the result. -/
theorem resolveOne_ext (reg : List (String × Module)) (U : List String)
    (hdeps : ∀ n d, d ∈ depsOf reg n → d ∈ U) :
    ∀ (k f : Nat) (n : String) (st : RState), n ∈ U → meas U st.1 ≤ k → k < f →
      Ext U st (resolveOne reg f n st) ∧ n ∈ (resolveOne reg f n st).1 ∧
      (n ∈ st.1 → resolveOne reg f n st = st) ∧
      (n ∉ st.1 → n ∈ (resolveOne reg f n st).2) := by
  intro k
  induction k using Nat.strong_induction_on with
  | _ k IH =>
    intro f n st hU hm hf
    obtain ⟨f', rfl⟩ : ∃ f', f = f' + 1 := ⟨f - 1, by omega⟩
    by_cases hseen : n ∈ st.1
    · have heq : resolveOne reg (f' + 1) n st = st := by
        rw [resolveOne]
        simp [hseen]
      rw [heq]
      exact ⟨Ext_self U st, hseen, fun _ => rfl, fun h => absurd hseen h⟩
    · have hkpos : 1 ≤ k := le_trans (meas_pos U hU hseen) hm
      have hm1 : meas U (st.1 ++ [n], st.2).1 ≤ k - 1 := by
        have := meas_mark U hU hseen
        have h2 := hm
        simp only []
        omega
      have hstep : ∀ d std, d ∈ U → meas U std.1 ≤ k - 1 →
          Ext U std (resolveOne reg f' d std) ∧ d ∈ (resolveOne reg f' d std).1 := by
        intro d std hdU hmd
        have h := IH (k - 1) (by omega) f' d std hdU hmd (by omega)
        exact ⟨h.1, h.2.1⟩
      obtain ⟨hext2, hcov⟩ := foldl_ext U (k - 1) (resolveOne reg f') hstep
        (depsOf reg n) (st.1 ++ [n], st.2) (fun d hd => hdeps n d hd) hm1
      have hres : resolveOne reg (f' + 1) n st =
          (((depsOf reg n).foldl (fun s d => resolveOne reg f' d s) (st.1 ++ [n], st.2)).1,
           ((depsOf reg n).foldl (fun s d => resolveOne reg f' d s) (st.1 ++ [n], st.2)).2 ++ [n]) := by
        rw [resolveOne]
        simp [hseen]
      obtain ⟨Δ₂, ha2, hs2, hd2, hn2, hU2⟩ := hext2
      rw [hres]
      have hnth : n ∈ ((depsOf reg n).foldl (fun s d => resolveOne reg f' d s) (st.1 ++ [n], st.2)).1 :=
        (hs2 n).mpr (Or.inl (by simp))
      refine ⟨⟨Δ₂ ++ [n], ?_, ?_, ?_, ?_, ?_⟩, hnth, fun h => absurd h hseen, fun _ => by simp⟩
      · simp only []
        rw [ha2]
        simp
      · intro x
        simp only []
        rw [hs2 x]
        simp only [List.mem_append, List.mem_singleton]
        tauto
      · intro x hx
        rcases List.mem_append.mp hx with hx | hx
        · intro hmem
          exact hd2 x hx (by simp [hmem])
        · rw [List.mem_singleton] at hx
          subst hx
          exact hseen
      · refine List.Nodup.append hn2 (by simp) ?_
        intro x hx1 hx2
        rw [List.mem_singleton] at hx2
        subst hx2
        exact hd2 x hx1 (by simp)
      · intro x hx
        rcases List.mem_append.mp hx with hx | hx
        · exact hU2 x hx
        · rw [List.mem_singleton] at hx
          subst hx
          exact hU

/-- The result of a `resolve` call does not depend on the fuel, as long
as the fuel exceeds the number of unseen universe names (this is the
formal content of "the visited-set guard prevents infinite recursion"). -/
theorem resolveOne_fuel (reg : List (String × Module)) (U : List String)
    (hdeps : ∀ n d, d ∈ depsOf reg n → d ∈ U) :
    ∀ (k f f' : Nat) (n : String) (st : RState), n ∈ U → meas U st.1 ≤ k →
      k < f → k < f' → resolveOne reg f n st = resolveOne reg f' n st := by
  intro k
  induction k using Nat.strong_induction_on with
  | _ k IH =>
    intro f f' n st hU hm hf hf'
    obtain ⟨f1, rfl⟩ : ∃ x, f = x + 1 := ⟨f - 1, by omega⟩
    obtain ⟨f2, rfl⟩ : ∃ x, f' = x + 1 := ⟨f' - 1, by omega⟩
    by_cases hseen : n ∈ st.1
    · rw [resolveOne, resolveOne]
      simp [hseen]
    · have hkpos : 1 ≤ k := le_trans (meas_pos U hU hseen) hm
      have hfold : ∀ (l : List String) (std : RState), (∀ d ∈ l, d ∈ U) →
          meas U std.1 ≤ k - 1 →
          l.foldl (fun s d => resolveOne reg f1 d s) std =
          l.foldl (fun s d => resolveOne reg f2 d s) std := by
        intro l
        induction l with
        | nil =>
          intro std _ _
          rfl
        | cons d ds ihl =>
          intro std hdU hmd
          simp only [List.foldl_cons]
          rw [IH (k - 1) (by omega) f1 f2 d std (hdU d (by simp)) hmd (by omega) (by omega)]
          have hext := (resolveOne_ext reg U hdeps (k - 1) f2 d std (hdU d (by simp))
            hmd (by omega)).1
          have hmd2 : meas U (resolveOne reg f2 d std).1 ≤ k - 1 :=
            le_trans (meas_mono U (Ext_seen_sub hext)) hmd
          exact ihl _ (fun e he => hdU e (by simp [he])) hmd2
      rw [resolveOne, resolveOne]
      simp only [hseen, if_false, reduceIte]
      have hm1 : meas U ((st.1 ++ [n], st.2) : RState).1 ≤ k - 1 := by
        have := meas_mark U hU hseen
        simp only []
        omega
      rw [hfold (depsOf reg n) (st.1 ++ [n], st.2) (fun d hd => hdeps n d hd) hm1]

/-- `meas` never exceeds the universe length. -/
theorem meas_le_len (U seen : List String) : meas U seen ≤ U.length := by
  unfold meas
  calc (U.dedup.filter fun x => decide (x ∉ seen)).length
      ≤ U.dedup.length := List.length_filter_le _ _
    _ ≤ U.length := (List.dedup_sublist U).length_le

theorem resolveFuel_gt (reg : List (String × Module)) (names : List String) :
    (univNames reg names).length < resolveFuel reg names := by
  unfold univNames resolveFuel
  simp
/-- The state after resolving all requested names with a given fuel. -/
def resolveAllWith (reg : List (String × Module)) (names : List String) (f : Nat) : RState :=
  names.foldl (fun st n => resolveOne reg f n st) ([], [])

theorem ResolveDeps_eq_resolveAll (reg : List (String × Module)) (names : List String) :
    ResolveDeps reg names = (resolveAllWith reg names (resolveFuel reg names)).2 := rfl

/-- Top-level fuel independence. -/
theorem resolveAll_fuel (reg : List (String × Module)) (names : List String) :
    ∀ f f', (univNames reg names).length < f → (univNames reg names).length < f' →
      resolveAllWith reg names f = resolveAllWith reg names f' := by
  intro f f' hf hf'
  unfold resolveAllWith
  have hU : ∀ d ∈ names, d ∈ univNames reg names := by
    intro d hd
    exact List.mem_append.mpr (Or.inl hd)
  have hgen : ∀ (l : List String) (st : RState), (∀ d ∈ l, d ∈ univNames reg names) →
      l.foldl (fun st n => resolveOne reg f n st) st =
      l.foldl (fun st n => resolveOne reg f' n st) st := by
    intro l
    induction l with
    | nil =>
      intro st _
      rfl
    | cons d ds ih =>
      intro st hdl
      simp only [List.foldl_cons]
      rw [resolveOne_fuel reg (univNames reg names) (depsOf_sub_univ reg names)
        (univNames reg names).length f f' d st (hdl d (by simp)) (meas_le_len _ _) hf hf']
      exact ih _ (fun e he => hdl e (by simp [he]))
  exact hgen names ([], []) hU

/-- `Ext` and coverage for the full top-level run. -/
theorem resolveAll_ext (reg : List (String × Module)) (names : List String) :
    Ext (univNames reg names) ([], []) (resolveAllWith reg names (resolveFuel reg names)) ∧
    ∀ n ∈ names, n ∈ (resolveAllWith reg names (resolveFuel reg names)).1 := by
  have hstep : ∀ n st, n ∈ univNames reg names →
      meas (univNames reg names) st.1 ≤ (univNames reg names).length →
      Ext (univNames reg names) st (resolveOne reg (resolveFuel reg names) n st) ∧
      n ∈ (resolveOne reg (resolveFuel reg names) n st).1 := by
    intro n st hU hm
    have h := resolveOne_ext reg (univNames reg names) (depsOf_sub_univ reg names)
      (univNames reg names).length (resolveFuel reg names) n st hU hm (resolveFuel_gt reg names)
    exact ⟨h.1, h.2.1⟩
  exact foldl_ext (univNames reg names) (univNames reg names).length _ hstep names ([], [])
    (fun d hd => List.mem_append.mpr (Or.inl hd)) (meas_le_len _ _)

/-- Claim C9.  For every module registry — cyclic dependency declarations
included — `ResolveDeps` terminates: the recursion is insensitive to any
extra fuel beyond the computed bound (the visited-set guard caps the
recursion depth), and every name the traversal marks as visited appears
exactly once in the output (the output list has no duplicates and equals
the visited set).  The final conjunct runs a two-module dependency cycle
concretely. -/
theorem C9_resolve_terminates_and_visits_once (reg : List (String × Module))
    (names : List String) :
    (∀ extra : Nat, resolveAllWith reg names (resolveFuel reg names + extra) =
      resolveAllWith reg names (resolveFuel reg names)) ∧
    (ResolveDeps reg names).Nodup ∧
    (∀ x, x ∈ (resolveAllWith reg names (resolveFuel reg names)).1 ↔
      x ∈ ResolveDeps reg names) ∧
    ResolveDeps [("cyca", { Name := "cyca", Deps := ["cycb"] }),
                 ("cycb", { Name := "cycb", Deps := ["cyca"] })] ["cyca"] =
      ["cycb", "cyca"] := by
  obtain ⟨hext, hcov⟩ := resolveAll_ext reg names
  obtain ⟨Δ, ha, hs, hd, hnd, hU⟩ := hext
  refine ⟨?_, ?_, ?_, by decide⟩
  · intro extra
    exact resolveAll_fuel reg names _ _
      (lt_of_lt_of_le (resolveFuel_gt reg names) (by omega)) (resolveFuel_gt reg names)
  · rw [ResolveDeps_eq_resolveAll, ha]
    simpa using hnd
  · intro x
    rw [ResolveDeps_eq_resolveAll, ha]
    rw [hs x]
    simp

/-! ### Dependency-before-dependent ordering (acyclic case, C4) -/

/-- Every declared dependency of every element of `acc` occurs strictly
earlier in `acc`. -/
def OrderedAcc (reg : List (String × Module)) (acc : List String) : Prop :=
  ∀ pre x post, acc = pre ++ x :: post → ∀ d ∈ depsOf reg x, d ∈ pre

theorem OrderedAcc_nil (reg : List (String × Module)) : OrderedAcc reg [] := by
  intro pre x post h
  cases pre <;> cases h

theorem OrderedAcc_append_one {reg : List (String × Module)} {acc : List String} {n : String}
    (hacc : OrderedAcc reg acc) (hdeps : ∀ d ∈ depsOf reg n, d ∈ acc) :
    OrderedAcc reg (acc ++ [n]) := by
  intro pre x post heq d hd
  rcases List.append_eq_append_iff.mp heq.symm with ⟨a', hacc', hxpost⟩ | ⟨c', hpre, hsing⟩
  · -- acc = pre ++ a',  x :: post = a' ++ [n]
    cases a' with
    | nil =>
      simp only [List.nil_append] at hxpost
      injection hxpost with h1 h2
      subst h1
      rw [List.append_nil] at hacc'
      rw [← hacc']
      exact hdeps d hd
    | cons y a'' =>
      simp only [List.cons_append] at hxpost
      injection hxpost with h1 h2
      subst h1
      exact hacc pre x a'' hacc' d hd
  · -- pre = acc ++ c',  [n] = c' ++ x :: post
    cases c' with
    | nil =>
      simp only [List.nil_append] at hsing
      injection hsing with h1 h2
      subst h1
      rw [List.append_nil] at hpre
      rw [hpre]
      exact hdeps d hd
    | cons y c'' =>
      simp only [List.cons_append] at hsing
      injection hsing with h1 h2
      exact absurd h2.symm (by simp)

theorem Ext_gray {U : List String} {st st' : RState} (h : Ext U st st') :
    ∀ x, (x ∈ st'.1 ∧ x ∉ st'.2) ↔ (x ∈ st.1 ∧ x ∉ st.2) := by
  obtain ⟨Δ, ha, hs, hd, _, _⟩ := h
  intro x
  constructor
  · rintro ⟨h1, h2⟩
    rcases (hs x).mp h1 with hx | hx
    · refine ⟨hx, fun hmem => h2 ?_⟩
      rw [ha]
      exact List.mem_append.mpr (Or.inl hmem)
    · exact absurd (by rw [ha]; exact List.mem_append.mpr (Or.inr hx)) h2
  · rintro ⟨h1, h2⟩
    refine ⟨(hs x).mpr (Or.inl h1), fun hmem => ?_⟩
    rw [ha] at hmem
    rcases List.mem_append.mp hmem with hx | hx
    · exact h2 hx
    · exact hd x hx h1

theorem Ext_acc_sub {U : List String} {st st' : RState} (h : Ext U st st') :
    ∀ x ∈ st.2, x ∈ st'.2 := by
  obtain ⟨Δ, ha, _⟩ := h
  intro x hx
  rw [ha]
  exact List.mem_append.mpr (Or.inl hx)

/-- Folding `resolve` over a list of names below rank bound `r` preserves
the ordering invariant, puts every processed name into the result, and
leaves the gray set (seen but not yet emitted) unchanged. -/
theorem foldl_ordered (reg : List (String × Module)) (U : List String)
    (rank : String → Nat) (k f r : Nat)
    (hone : ∀ d st, rank d < r → d ∈ U → meas U st.1 ≤ k →
      (∀ y, y ∈ st.1 → y ∉ st.2 → rank d < rank y) → OrderedAcc reg st.2 →
      OrderedAcc reg (resolveOne reg f d st).2 ∧ d ∈ (resolveOne reg f d st).2)
    (hext1 : ∀ d st, d ∈ U → meas U st.1 ≤ k → Ext U st (resolveOne reg f d st)) :
    ∀ (l : List String) (st : RState),
      (∀ d ∈ l, d ∈ U ∧ rank d < r) → meas U st.1 ≤ k →
      (∀ d ∈ l, ∀ y, y ∈ st.1 → y ∉ st.2 → rank d < rank y) →
      OrderedAcc reg st.2 →
      OrderedAcc reg (l.foldl (fun s d => resolveOne reg f d s) st).2 ∧
      (∀ d ∈ l, d ∈ (l.foldl (fun s d => resolveOne reg f d s) st).2) ∧
      (∀ x, (x ∈ (l.foldl (fun s d => resolveOne reg f d s) st).1 ∧
             x ∉ (l.foldl (fun s d => resolveOne reg f d s) st).2) ↔
            (x ∈ st.1 ∧ x ∉ st.2)) ∧
      Ext U st (l.foldl (fun s d => resolveOne reg f d s) st) := by
  intro l
  induction l with
  | nil =>
    intro st _ hm _ hacc
    exact ⟨hacc, by simp, fun x => Iff.rfl, Ext_self U st⟩
  | cons d ds ih =>
    intro st hl hm hgray hacc
    have hdU := (hl d (by simp)).1
    have hdr := (hl d (by simp)).2
    obtain ⟨hacc1, hdin⟩ := hone d st hdr hdU hm (hgray d (by simp)) hacc
    have hext := hext1 d st hdU hm
    have hm1 : meas U (resolveOne reg f d st).1 ≤ k :=
      le_trans (meas_mono U (Ext_seen_sub hext)) hm
    have hgray1 : ∀ e ∈ ds, ∀ y, y ∈ (resolveOne reg f d st).1 →
        y ∉ (resolveOne reg f d st).2 → rank e < rank y := by
      intro e he y hy1 hy2
      obtain ⟨hy1', hy2'⟩ := (Ext_gray hext y).mp ⟨hy1, hy2⟩
      exact hgray e (by simp [he]) y hy1' hy2'
    obtain ⟨haccF, hcovF, hgrayF, hextF⟩ := ih (resolveOne reg f d st)
      (fun e he => hl e (by simp [he])) hm1 hgray1 hacc1
    simp only [List.foldl_cons]
    refine ⟨haccF, ?_, ?_, Ext_trans hext hextF⟩
    · intro e he
      rcases List.mem_cons.mp he with rfl | he'
      · exact Ext_acc_sub hextF e hdin
      · exact hcovF e he'
    · intro x
      rw [hgrayF x]
      exact Ext_gray hext x

/-- One `resolve` call preserves the ordering invariant and emits its
name, when every gray name outranks it (rank-decreasing dependency
declarations, i.e. acyclicity). -/
theorem resolveOne_ordered (reg : List (String × Module)) (U : List String)
    (hdeps : ∀ n d, d ∈ depsOf reg n → d ∈ U) (rank : String → Nat)
    (hrank : ∀ n d, d ∈ depsOf reg n → rank d < rank n) :
    ∀ (r k f : Nat) (n : String) (st : RState), rank n < r → n ∈ U →
      meas U st.1 ≤ k → k < f →
      (∀ y, y ∈ st.1 → y ∉ st.2 → rank n < rank y) → OrderedAcc reg st.2 →
      OrderedAcc reg (resolveOne reg f n st).2 ∧ n ∈ (resolveOne reg f n st).2 := by
  intro r
  induction r with
  | zero =>
    intro k f n st hr
    omega
  | succ r ihr =>
    intro k f n st hr hU hm hf hgray hacc
    obtain ⟨f', rfl⟩ : ∃ f', f = f' + 1 := ⟨f - 1, by omega⟩
    by_cases hseen : n ∈ st.1
    · have heq : resolveOne reg (f' + 1) n st = st := by
        rw [resolveOne]
        simp [hseen]
      rw [heq]
      refine ⟨hacc, ?_⟩
      by_contra hnot
      exact lt_irrefl (rank n) (hgray n hseen hnot)
    · have hkpos : 1 ≤ k := le_trans (meas_pos U hU hseen) hm
      have hm1 : meas U ((st.1 ++ [n], st.2) : RState).1 ≤ k - 1 := by
        have := meas_mark U hU hseen
        simp only []
        omega
      have hone : ∀ d std, rank d < r → d ∈ U → meas U std.1 ≤ k - 1 →
          (∀ y, y ∈ std.1 → y ∉ std.2 → rank d < rank y) → OrderedAcc reg std.2 →
          OrderedAcc reg (resolveOne reg f' d std).2 ∧ d ∈ (resolveOne reg f' d std).2 :=
        fun d std hdr hdU hmd hgrayd haccd =>
          ihr (k - 1) f' d std hdr hdU hmd (by omega) hgrayd haccd
      have hext1 : ∀ d std, d ∈ U → meas U std.1 ≤ k - 1 →
          Ext U std (resolveOne reg f' d std) :=
        fun d std hdU hmd =>
          (resolveOne_ext reg U hdeps (k - 1) f' d std hdU hmd (by omega)).1
      have hgray1 : ∀ d ∈ depsOf reg n, ∀ y, y ∈ ((st.1 ++ [n], st.2) : RState).1 →
          y ∉ ((st.1 ++ [n], st.2) : RState).2 → rank d < rank y := by
        intro d hd y hy1 hy2
        simp only [List.mem_append, List.mem_singleton] at hy1
        rcases hy1 with hy1 | heq
        · exact lt_trans (hrank n d hd) (hgray y hy1 hy2)
        · rw [heq]
          exact hrank n d hd
      obtain ⟨hacc2, hcov2, _, _⟩ := foldl_ordered reg U rank (k - 1) f' r hone hext1
        (depsOf reg n) (st.1 ++ [n], st.2)
        (fun d hd => ⟨hdeps n d hd, lt_of_lt_of_le (hrank n d hd) (by omega)⟩)
        hm1 hgray1 hacc
      have hres : resolveOne reg (f' + 1) n st =
          (((depsOf reg n).foldl (fun s d => resolveOne reg f' d s) (st.1 ++ [n], st.2)).1,
           ((depsOf reg n).foldl (fun s d => resolveOne reg f' d s) (st.1 ++ [n], st.2)).2 ++ [n]) := by
        rw [resolveOne]
        simp [hseen]
      rw [hres]
      exact ⟨OrderedAcc_append_one hacc2 hcov2, by simp⟩

theorem rank_lt_bound (rank : String → Nat) (l : List String) :
    ∀ d ∈ l, rank d < (l.map rank).foldr max 0 + 1 := by
  induction l with
  | nil => simp
  | cons a l ih =>
    intro d hd
    rcases List.mem_cons.mp hd with rfl | hd'
    · simp only [List.map_cons, List.foldr_cons]
      omega
    · have := ih d hd'
      simp only [List.map_cons, List.foldr_cons]
      omega

/-- Claim C4.  If the declared dependency relation of the registry is
acyclic (witnessed by a rank function that strictly decreases along
declared dependency edges) and every requested name is present in the
registry, then `ResolveDeps` returns a list that contains every requested
name, is closed under declared dependencies (hence contains every
transitive declared dependency), contains no name twice, and places every
declared dependency of a module strictly before that module. -/
theorem C4_resolve_topological (reg : List (String × Module)) (names : List String)
    (rank : String → Nat)
    (hrank : ∀ n d, d ∈ depsOf reg n → rank d < rank n)
    (hnames : ∀ n ∈ names, (reg.lookup n).isSome) :
    (∀ n ∈ names, n ∈ ResolveDeps reg names) ∧
    (∀ x ∈ ResolveDeps reg names, ∀ d ∈ depsOf reg x, d ∈ ResolveDeps reg names) ∧
    (ResolveDeps reg names).Nodup ∧
    OrderedAcc reg (ResolveDeps reg names) := by
  have hdeps := depsOf_sub_univ reg names
  set U := univNames reg names with hUdef
  set F := resolveFuel reg names with hFdef
  set r := (names.map rank).foldr max 0 + 1 with hrdef
  have hone : ∀ d st, rank d < r → d ∈ U → meas U st.1 ≤ U.length →
      (∀ y, y ∈ st.1 → y ∉ st.2 → rank d < rank y) → OrderedAcc reg st.2 →
      OrderedAcc reg (resolveOne reg F d st).2 ∧ d ∈ (resolveOne reg F d st).2 :=
    fun d st hdr hdU hmd hgrayd haccd =>
      resolveOne_ordered reg U hdeps rank hrank r U.length F d st hdr hdU hmd
        (resolveFuel_gt reg names) hgrayd haccd
  have hext1 : ∀ d st, d ∈ U → meas U st.1 ≤ U.length → Ext U st (resolveOne reg F d st) :=
    fun d st hdU hmd =>
      (resolveOne_ext reg U hdeps U.length F d st hdU hmd (resolveFuel_gt reg names)).1
  obtain ⟨haccF, hcovF, _, _⟩ := foldl_ordered reg U rank U.length F r hone hext1
    names ([], [])
    (fun d hd => ⟨List.mem_append.mpr (Or.inl hd), rank_lt_bound rank names d hd⟩)
    (meas_le_len _ _) (by intro d _ y hy; cases hy) (OrderedAcc_nil reg)
  have hout : ResolveDeps reg names =
      (names.foldl (fun st n => resolveOne reg F n st) ([], [])).2 := rfl
  refine ⟨?_, ?_, ?_, ?_⟩
  · intro n hn
    rw [hout]
    exact hcovF n hn
  · intro x hx d hd
    rw [hout] at hx ⊢
    obtain ⟨pre, post, hsplit⟩ := List.append_of_mem hx
    have := haccF pre x post hsplit d hd
    rw [hsplit]
    exact List.mem_append.mpr (Or.inl this)
  · have := (C9_resolve_terminates_and_visits_once reg names).2.1
    exact this
  · rw [hout]
    exact haccF

/-- A rank bound checked entry-by-entry on the registry transfers to the
total `depsOf` relation (unknown names have no declared dependencies). -/
theorem depsOf_rank_of_forall (reg : List (String × Module)) (rank : String → Nat)
    (h : ∀ p ∈ reg, ∀ d ∈ p.2.Deps, rank d < rank p.1) :
    ∀ n d, d ∈ depsOf reg n → rank d < rank n := by
  intro n d hd
  rw [depsOf] at hd
  rcases hlk : reg.lookup n with _ | m
  · rw [hlk] at hd
    exact absurd hd (List.not_mem_nil d)
  · rw [hlk] at hd
    exact h (n, m) (lookup_mem reg hlk) d hd

/-- A concrete acyclicity witness for `ModuleRegistry`: its only declared
edges are fsx → errx and ai → errx, ai → fsx. -/
def rank0 : String → Nat :=
  fun n => if n = "ai" then 2 else if n = "fsx" then 1 else 0

theorem C4_resolve_topological_witness :
    (∀ n ∈ ["ai"], n ∈ ResolveDeps ModuleRegistry ["ai"]) ∧
    (∀ x ∈ ResolveDeps ModuleRegistry ["ai"], ∀ d ∈ depsOf ModuleRegistry x,
      d ∈ ResolveDeps ModuleRegistry ["ai"]) ∧
    (ResolveDeps ModuleRegistry ["ai"]).Nodup ∧
    OrderedAcc ModuleRegistry (ResolveDeps ModuleRegistry ["ai"]) :=
  C4_resolve_topological ModuleRegistry ["ai"] rank0
    (depsOf_rank_of_forall ModuleRegistry rank0 (by decide))
    (by decide)

/-! ### Remote fetch: `FetchModulePaths` path filtering (C5)

`FetchModulePaths` (remote client) downloads a GitHub source archive and
walks its tar entries.  We model the per-entry processing of the loop
body as a pure function from an entry to the file-system events it
performs; network/IO failures abort the whole call in Go, so the event
trace below is the successful run. -/

/-- Tar entry kinds distinguished by the Go `switch header.Typeflag`:
directories, regular files, and everything else (ignored). -/
inductive EntryKind where
  | dir : EntryKind
  | reg : EntryKind
  | other : EntryKind
deriving DecidableEq, Repr

/-- A tar archive entry: its full name inside the archive, its kind, its
content (empty for directories) and its mode bits. -/
structure TarEntry where
  name : Text
  kind : EntryKind
  content : Text
  mode : Nat
deriving DecidableEq, Repr

/-- File-system events of the fetch loop, with paths relative to
`destRoot` (Go prepends `destRoot` with `filepath.Join` uniformly):
`mkdirAll rel` for a directory entry, `mkdirParent rel` for
`os.MkdirAll(filepath.Dir(destPath))` before writing the regular file
`rel`, and `writeFile rel content mode` for `os.WriteFile`. -/
inductive FetchEv where
  | mkdirAll : Text → FetchEv
  | mkdirParent : Text → FetchEv
  | writeFile : Text → Text → Nat → FetchEv
deriving DecidableEq, Repr

/-- Go `strings.SplitN(s, "/", 2)` restricted to what the loop needs:
`none` when `s` has no slash (`len(parts) < 2`), otherwise the pair of
the part before the first slash and the remainder. -/
def breakSlash : Text → Option (Text × Text)
  | [] => none
  | c :: cs =>
    if c = '/' then some ([], cs)
    else
      match breakSlash cs with
      | some (a, b) => some (c :: a, b)
      | none => none

/-- Lines 88–92 of the loop: strip the top-level GitHub wrapper
directory; skip the entry (`continue`) when there is no slash or nothing
follows it. -/
def stripWrapper (name : Text) : Option Text :=
  match breakSlash name with
  | none => none
  | some (_, rel) => if rel = [] then none else some rel

/-- `matchesAnyPrefix` from the remote client: the path equals one of the
requested prefixes, or starts with a prefix followed by `/`. -/
def matchesAnyPrefix (path : Text) (prefixes : List Text) : Bool :=
  prefixes.any (fun p => path == p || (p ++ txt "/").isPrefixOf path)

/-- Lines 115–118: the Go-import rewrite applied to `.go` files when both
module paths are nonempty. -/
def rewriteContent (gmOld gmNew rel content : Text) : Text :=
  if (txt ".go").isSuffixOf rel && !gmOld.isEmpty && !gmNew.isEmpty then
    replaceAll gmOld gmNew content
  else content

/-- The body of the `for` loop of `FetchModulePaths` for one tar entry:
the list of file-system events it performs. -/
def processEntry (paths : List Text) (gmOld gmNew : Text) (e : TarEntry) : List FetchEv :=
  match stripWrapper e.name with
  | none => []
  | some rel =>
    if matchesAnyPrefix rel paths then
      match e.kind with
      | EntryKind.dir => [FetchEv.mkdirAll rel]
      | EntryKind.reg =>
        [FetchEv.mkdirParent rel,
         FetchEv.writeFile rel (rewriteContent gmOld gmNew rel e.content) e.mode]
      | EntryKind.other => []
    else []

/-- The whole successful fetch loop: events of the entries in order. -/
def fetchWrites (paths : List Text) (gmOld gmNew : Text) : List TarEntry → List FetchEv
  | [] => []
  | e :: es => processEntry paths gmOld gmNew e ++ fetchWrites paths gmOld gmNew es

example :
    fetchWrites [txt "pkg/errx"] (txt "OLD") (txt "NEW")
      [⟨txt "manifesto-main/pkg/errx/errx.go", EntryKind.reg, txt "import OLD/x", 420⟩,
       ⟨txt "manifesto-main/README.md", EntryKind.reg, txt "hi", 420⟩,
       ⟨txt "manifesto-main/", EntryKind.dir, [], 493⟩] =
    [FetchEv.mkdirParent (txt "pkg/errx/errx.go"),
     FetchEv.writeFile (txt "pkg/errx/errx.go") (txt "import NEW/x") 420] := by decide

theorem writeFile_mem_processEntry {paths : List Text} {gmOld gmNew : Text}
    {e : TarEntry} {rel content : Text} {mode : Nat}
    (h : FetchEv.writeFile rel content mode ∈ processEntry paths gmOld gmNew e) :
    e.kind = EntryKind.reg ∧ stripWrapper e.name = some rel ∧
    matchesAnyPrefix rel paths = true ∧
    content = rewriteContent gmOld gmNew rel e.content ∧ mode = e.mode := by
  rcases hs : stripWrapper e.name with _ | r
  · simp only [processEntry, hs] at h
    cases h
  · simp only [processEntry, hs] at h
    by_cases hm : matchesAnyPrefix r paths = true
    · rw [if_pos hm] at h
      rcases ek : e.kind with _ | _ | _
      · simp only [ek] at h
        simp at h
      · simp only [ek] at h
        simp only [List.mem_cons, List.not_mem_nil, or_false] at h
        rcases h with h | h
        · exact absurd h (by simp)
        · injection h with h1 h2 h3
          subst h1
          subst h2
          subst h3
          exact ⟨rfl, rfl, hm, rfl, rfl⟩
      · simp only [ek] at h
        simp at h
    · rw [if_neg hm] at h
      cases h

/-- Claim C5.  In the successful fetch loop, every regular file written
comes from an archive entry whose wrapper-stripped path matches one of
the requested path prefixes (equal to a prefix, or nested under one),
with content equal to the Go-import rewrite of the entry content and the
entry mode bits; entries with no slash or nothing after the wrapper
component, and entries matching no prefix, perform no file-system event
at all. -/
theorem C5_fetch_filters_paths (paths : List Text) (gmOld gmNew : Text)
    (entries : List TarEntry) (rel content : Text) (mode : Nat)
    (h : FetchEv.writeFile rel content mode ∈ fetchWrites paths gmOld gmNew entries) :
    (∃ e ∈ entries, e.kind = EntryKind.reg ∧ stripWrapper e.name = some rel ∧
      matchesAnyPrefix rel paths = true ∧
      content = rewriteContent gmOld gmNew rel e.content ∧ mode = e.mode) ∧
    (∀ e ∈ entries, stripWrapper e.name = none →
      processEntry paths gmOld gmNew e = []) ∧
    (∀ e ∈ entries, ∀ r, stripWrapper e.name = some r →
      matchesAnyPrefix r paths = false → processEntry paths gmOld gmNew e = []) := by
  refine ⟨?_, ?_, ?_⟩
  · induction entries with
    | nil => cases h
    | cons e es ih =>
      rw [fetchWrites] at h
      rcases List.mem_append.mp h with h1 | h2
      · exact ⟨e, List.mem_cons_self e es, writeFile_mem_processEntry h1⟩
      · obtain ⟨e2, he2, hrest⟩ := ih h2
        exact ⟨e2, List.mem_cons_of_mem e he2, hrest⟩
  · intro e _ hs
    rw [processEntry, hs]
  · intro e _ r hs hm
    rw [processEntry, hs]
    simp [hm]

/-- A small archive for the C5 witness: one matched `.go` file, one
unmatched file, one wrapper-only directory entry. -/
def fetchEntriesW : List TarEntry :=
  [⟨txt "manifesto-main/pkg/errx/errx.go", EntryKind.reg, txt "import OLD/x", 420⟩,
   ⟨txt "manifesto-main/README.md", EntryKind.reg, txt "hi", 420⟩,
   ⟨txt "manifesto-main/", EntryKind.dir, [], 493⟩]

theorem C5_fetch_filters_paths_witness :
    (∃ e ∈ fetchEntriesW, e.kind = EntryKind.reg ∧
      stripWrapper e.name = some (txt "pkg/errx/errx.go") ∧
      matchesAnyPrefix (txt "pkg/errx/errx.go") [txt "pkg/errx"] = true ∧
      txt "import NEW/x" = rewriteContent (txt "OLD") (txt "NEW") (txt "pkg/errx/errx.go") e.content ∧
      420 = e.mode) ∧
    (∀ e ∈ fetchEntriesW, stripWrapper e.name = none →
      processEntry [txt "pkg/errx"] (txt "OLD") (txt "NEW") e = []) ∧
    (∀ e ∈ fetchEntriesW, ∀ r, stripWrapper e.name = some r →
      matchesAnyPrefix r [txt "pkg/errx"] = false →
      processEntry [txt "pkg/errx"] (txt "OLD") (txt "NEW") e = []) :=
  C5_fetch_filters_paths [txt "pkg/errx"] (txt "OLD") (txt "NEW") fetchEntriesW
    (txt "pkg/errx/errx.go") (txt "import NEW/x") 420 (by decide)

/-! ### Project initialization: `InitProject` (project.go) and the
add/wire command (`runWireModule`, cli/add.go), as event traces

`InitProject` interleaves pure decisions with file-system and network
side effects.  We embed its control flow as a pure function from an
environment (the outcomes of the external calls: whether the destination
exists, whether downloads succeed) to the ordered list of side-effect
events it performs plus its result.  Event order mirrors the statement
order of the Go function. -/

/-- Side effects of `InitProject` / `runWireModule`, in program order:
creation of the project root, the latest-version lookup, the archive
download (with its extracted file writes), the fetch-failure cleanup
`os.RemoveAll(projectRoot)`, the `go.mod` fetch, individual file writes
(paths relative to the project root), the config post-processing pass,
a manifest save carrying the `WiredModules` value written, the
`EnsureModulesPresent` download for a wireable module, and a
`WireModule` call. -/
inductive IEv where
  | mkdirRoot : IEv
  | netLatest : IEv
  | netFetchModules : IEv
  | removeRoot : IEv
  | netFetchGoMod : IEv
  | writeFile : String → IEv
  | postProcessConfig : IEv
  | saveManifest : List String → IEv
  | netEnsure : String → IEv
  | wireModule : String → IEv
deriving DecidableEq, Repr

/-- Outcomes of the external calls `InitProject` makes, fixed up front:
whether `os.Stat` finds the destination, what `GetLatestVersion`
returns (`none` = error, Go then falls back to the default ref), whether
`FetchModulePaths` succeeds, and per-module outcomes of
`EnsureModulesPresent` and `WireModule`. -/
structure InitEnv where
  preexisting : Bool
  latestVersion : Option String
  fetchOk : Bool
  ensureOk : String → Bool
  wireOk : String → Bool

/-- `InitOptions` from project.go. -/
structure InitOptions where
  ProjectName : String
  GoModule : String
  OutputDir : String
  Modules : List String
  Ref : String
  WireModules : List String

/-- Lines 48–55 of `InitProject`: walk the resolved module list, failing
at the first name the registry does not know, otherwise appending each
module declared `Paths` in order. -/
def collectPathsGo : List String → Except String (List String)
  | [] => Except.ok []
  | m :: ms =>
    match ModuleRegistry.lookup m with
    | none => Except.error ("unknown module: " ++ m)
    | some mod =>
      match collectPathsGo ms with
      | Except.error e => Except.error e
      | Except.ok rest => Except.ok (mod.Paths ++ rest)

/-- Step 6 of `InitProject`: wire each requested wireable module in
order.  Each iteration looks the module up, downloads its required
source modules when it declares any, calls `WireModule`, and appends the
name to the in-memory `WiredModules`; any failure aborts the loop with
the appends so far unsaved.  Returns (events, final WiredModules,
result). -/
def wireLoop (env : InitEnv) (wired : List String) :
    List String → List IEv × List String × Except String Unit
  | [] => ([], wired, Except.ok ())
  | w :: ws =>
    match WireableModuleRegistry.lookup w with
    | none => ([], wired, Except.error ("unknown wireable module: " ++ w))
    | some spec =>
      if spec.RequiredModules ≠ [] then
        if env.ensureOk w then
          if env.wireOk w then
            let rest := wireLoop env (wired ++ [w]) ws
            (IEv.netEnsure w :: IEv.wireModule w :: rest.1, rest.2)
          else ([IEv.netEnsure w], wired, Except.error ("wire " ++ w))
        else ([IEv.netEnsure w], wired, Except.error ("download deps for " ++ w))
      else
        if env.wireOk w then
          let rest := wireLoop env (wired ++ [w]) ws
          (IEv.wireModule w :: rest.1, rest.2)
        else ([], wired, Except.error ("wire " ++ w))

/-- `InitProject` after the successful `os.MkdirAll(projectRoot)`: the
dependency resolution and registry check, the ref lookup, the fetch (on
failure: remove the root and abort), `go.mod` generation, the template
files, `.gitignore`, config post-processing, the first manifest save
(with empty `WiredModules`), the wire loop, and the final save when wire
modules were requested. -/
def initRest (env : InitEnv) (opts : InitOptions) : List IEv × Except String Unit :=
  match collectPathsGo (ResolveDeps ModuleRegistry opts.Modules) with
  | Except.error e => ([], Except.error e)
  | Except.ok allPaths =>
    let refEvs : List IEv := if opts.Ref = "" then [IEv.netLatest] else []
    if allPaths ≠ [] ∧ env.fetchOk = false then
      (refEvs ++ [IEv.netFetchModules, IEv.removeRoot], Except.error "fetch modules")
    else
      let fetchEvs : List IEv := if allPaths ≠ [] then [IEv.netFetchModules] else []
      let genEvs : List IEv :=
        [IEv.netFetchGoMod, IEv.writeFile "go.mod",
         IEv.writeFile "cmd/container.go", IEv.writeFile "cmd/server.go",
         IEv.writeFile "Makefile", IEv.writeFile "docker-compose.yml",
         IEv.writeFile ".gitignore", IEv.postProcessConfig,
         IEv.saveManifest []]
      let wl := wireLoop env [] opts.WireModules
      match wl.2.2 with
      | Except.error e => (refEvs ++ fetchEvs ++ genEvs ++ wl.1, Except.error e)
      | Except.ok _ =>
        if opts.WireModules ≠ [] then
          (refEvs ++ fetchEvs ++ genEvs ++ wl.1 ++ [IEv.saveManifest wl.2.1], Except.ok ())
        else
          (refEvs ++ fetchEvs ++ genEvs ++ wl.1, Except.ok ())

/-- `InitProject`: the destination check first (`filepath.Join` of
output dir and project name modelled as slash concatenation), then the
root directory creation, then everything else. -/
def InitProjectM (env : InitEnv) (opts : InitOptions) : List IEv × Except String Unit :=
  if env.preexisting then
    ([], Except.error ("directory " ++ opts.OutputDir ++ "/" ++ opts.ProjectName ++ " already exists"))
  else
    (IEv.mkdirRoot :: (initRest env opts).1, (initRest env opts).2)

/-- `runWireModule` from cli/add.go, reached when the argument names a
wireable module: the `IsWired` guard returns early with no write; else
required modules are downloaded when declared, `WireModule` runs, the
name is appended and the manifest saved.  Returns (events, final
WiredModules, result). -/
def runWireModuleM (env : InitEnv) (wired : List String) (m : String) :
    List IEv × List String × Except String Unit :=
  if m ∈ wired then ([], wired, Except.ok ())
  else
    match WireableModuleRegistry.lookup m with
    | none => ([], wired, Except.error ("unknown module: " ++ m))
    | some spec =>
      if spec.RequiredModules ≠ [] then
        if env.ensureOk m then
          if env.wireOk m then
            ([IEv.netEnsure m, IEv.wireModule m, IEv.saveManifest (wired ++ [m])],
             wired ++ [m], Except.ok ())
          else ([IEv.netEnsure m], wired, Except.error ("wire " ++ m))
        else ([IEv.netEnsure m], wired, Except.error ("download " ++ m))
      else
        if env.wireOk m then
          ([IEv.wireModule m, IEv.saveManifest (wired ++ [m])],
           wired ++ [m], Except.ok ())
        else ([], wired, Except.error ("wire " ++ m))

/-- The all-success environment used by the concrete runs below. -/
def envOK : InitEnv :=
  ⟨false, some "v1.2.3", true, fun _ => true, fun _ => true⟩

example :
    InitProjectM envOK ⟨"app", "gm", "out", ["fsx"], "v1", ["iam"]⟩ =
    ([IEv.mkdirRoot, IEv.netFetchModules, IEv.netFetchGoMod, IEv.writeFile "go.mod",
      IEv.writeFile "cmd/container.go", IEv.writeFile "cmd/server.go",
      IEv.writeFile "Makefile", IEv.writeFile "docker-compose.yml",
      IEv.writeFile ".gitignore", IEv.postProcessConfig, IEv.saveManifest [],
      IEv.netEnsure "iam", IEv.wireModule "iam", IEv.saveManifest ["iam"]],
     Except.ok ()) := by rfl

/-- Claim C10.  If the destination path already exists, `InitProject`
fails immediately with no file-system event at all; and whenever the
fetch-failure cleanup `os.RemoveAll(projectRoot)` runs, the destination
did not pre-exist and the very first event of the call was the creation
of the project root — the cleanup can only remove a directory the call
itself created. -/
theorem C10_preexisting_dir_guard (env : InitEnv) (opts : InitOptions) :
    (env.preexisting = true →
      InitProjectM env opts =
        ([], Except.error
          ("directory " ++ opts.OutputDir ++ "/" ++ opts.ProjectName ++ " already exists"))) ∧
    (IEv.removeRoot ∈ (InitProjectM env opts).1 →
      env.preexisting = false ∧
      (InitProjectM env opts).1.head? = some IEv.mkdirRoot) := by
  constructor
  · intro h
    rw [InitProjectM, if_pos h]
  · intro hmem
    by_cases h : env.preexisting = true
    · rw [InitProjectM, if_pos h] at hmem
      cases hmem
    · have hb : env.preexisting = false := by
        revert h
        cases env.preexisting <;> simp
      refine ⟨hb, ?_⟩
      rw [InitProjectM, if_neg h]
      rfl

/-- The preexisting case of C10 on a concrete call. -/
def optsBase : InitOptions := ⟨"app", "gm", "out", [], "v1", []⟩

def envPre : InitEnv := ⟨true, none, true, fun _ => true, fun _ => true⟩

theorem C10_preexisting_dir_guard_witness :
    InitProjectM envPre optsBase = ([], Except.error "directory out/app already exists") :=
  (C10_preexisting_dir_guard envPre optsBase).1 rfl

/-- Folding `resolve` keeps the state gray-free (accumulated = seen) and
puts every folded name into the result. -/
theorem foldl_covers (reg : List (String × Module)) (U : List String)
    (hdeps : ∀ n d, d ∈ depsOf reg n → d ∈ U) (k f : Nat) (hkf : k < f) :
    ∀ (l : List String) (st : RState), (∀ n ∈ l, n ∈ U) → meas U st.1 ≤ k →
      (∀ x, x ∈ st.1 → x ∈ st.2) →
      (∀ n ∈ l, n ∈ (l.foldl (fun s d => resolveOne reg f d s) st).2) ∧
      (∀ x, x ∈ (l.foldl (fun s d => resolveOne reg f d s) st).1 →
        x ∈ (l.foldl (fun s d => resolveOne reg f d s) st).2) := by
  intro l
  induction l with
  | nil =>
    intro st _ _ hng
    exact ⟨by simp, hng⟩
  | cons n ns ih =>
    intro st hl hm hng
    have hnU := hl n (by simp)
    obtain ⟨hext, hseen1, hstay, hnew⟩ := resolveOne_ext reg U hdeps k f n st hnU hm hkf
    have hn2 : n ∈ (resolveOne reg f n st).2 := by
      by_cases hs : n ∈ st.1
      · rw [hstay hs]
        exact hng n hs
      · exact hnew hs
    have hng1 : ∀ x, x ∈ (resolveOne reg f n st).1 → x ∈ (resolveOne reg f n st).2 := by
      intro x hx
      by_contra hnx
      have hgr := (Ext_gray hext x).mp ⟨hx, hnx⟩
      exact hgr.2 (hng x hgr.1)
    have hm1 : meas U (resolveOne reg f n st).1 ≤ k :=
      le_trans (meas_mono U (Ext_seen_sub hext)) hm
    obtain ⟨hcov, hngF⟩ := ih (resolveOne reg f n st)
      (fun x hx => hl x (by simp [hx])) hm1 hng1
    have hextF := (foldl_ext U k (fun d s => resolveOne reg f d s)
      (fun d s hdU hms => ⟨(resolveOne_ext reg U hdeps k f d s hdU hms hkf).1,
        (resolveOne_ext reg U hdeps k f d s hdU hms hkf).2.1⟩)
      ns (resolveOne reg f n st) (fun x hx => hl x (by simp [hx])) hm1).1
    simp only [List.foldl_cons]
    refine ⟨?_, hngF⟩
    intro x hx
    rcases List.mem_cons.mp hx with heq | hx2
    · rw [heq]
      exact Ext_acc_sub hextF n hn2
    · exact hcov x hx2

/-- `ResolveDeps` emits every requested name (known to the registry or
not). -/
theorem resolveAll_covers (reg : List (String × Module)) (names : List String) :
    ∀ n ∈ names, n ∈ ResolveDeps reg names := by
  have hdeps := depsOf_sub_univ reg names
  have h := foldl_covers reg (univNames reg names) hdeps
    (univNames reg names).length (resolveFuel reg names)
    (resolveFuel_gt reg names) names ([], [])
    (fun n hn => List.mem_append.mpr (Or.inl hn)) (meas_le_len _ _)
    (by intro x hx; cases hx)
  exact fun n hn => h.1 n hn

/-- A list containing a name the registry does not know makes
`collectPathsGo` fail with an unknown-module error. -/
theorem collectPathsGo_error (l : List String)
    (h : ∃ x ∈ l, ModuleRegistry.lookup x = none) :
    ∃ mm, ModuleRegistry.lookup mm = none ∧
      collectPathsGo l = Except.error ("unknown module: " ++ mm) := by
  induction l with
  | nil =>
    obtain ⟨x, hx, _⟩ := h
    cases hx
  | cons a as ih =>
    rcases hlk : ModuleRegistry.lookup a with _ | mod
    · exact ⟨a, hlk, by rw [collectPathsGo, hlk]⟩
    · obtain ⟨x, hx, hxl⟩ := h
      have hxas : x ∈ as := by
        rcases List.mem_cons.mp hx with heq | hxs
        · rw [heq] at hxl
          rw [hxl] at hlk
          cases hlk
        · exact hxs
      obtain ⟨mm, hmm, herr⟩ := ih ⟨x, hxas, hxl⟩
      refine ⟨mm, hmm, ?_⟩
      rw [collectPathsGo, hlk, herr]

def optsUnknown : InitOptions := ⟨"app", "gm", "out", ["nope"], "v1", []⟩

/-- Claim C6, counterexample.  Initializing with the unknown module name
`nope` does fail with an unknown-module error, but only after the
project root directory has been created: the event trace of the failing
call is `[mkdirRoot]`, not `[]`. -/
theorem C6_counterexample_mkdir_before_check :
    InitProjectM envOK optsUnknown =
      ([IEv.mkdirRoot], Except.error "unknown module: nope") ∧
    IEv.mkdirRoot ∈ (InitProjectM envOK optsUnknown).1 := by
  exact ⟨rfl, by decide⟩

/-- Claim C6, amended.  When the destination does not pre-exist and some
requested module name is unknown to the registry, `InitProject` fails
with an unknown-module error before any network activity — but after
one file-system event, the creation of the project root: the trace of
the failing call is exactly `[mkdirRoot]`. -/
theorem C6_amended_unknown_module_after_mkdir (env : InitEnv) (opts : InitOptions)
    (m : String) (hpre : env.preexisting = false) (hm : m ∈ opts.Modules)
    (hunk : ModuleRegistry.lookup m = none) :
    ∃ mm, ModuleRegistry.lookup mm = none ∧
      InitProjectM env opts =
        ([IEv.mkdirRoot], Except.error ("unknown module: " ++ mm)) := by
  have hcov : m ∈ ResolveDeps ModuleRegistry opts.Modules :=
    resolveAll_covers ModuleRegistry opts.Modules m hm
  obtain ⟨mm, hmm, herr⟩ :=
    collectPathsGo_error (ResolveDeps ModuleRegistry opts.Modules) ⟨m, hcov, hunk⟩
  refine ⟨mm, hmm, ?_⟩
  have hrest : initRest env opts = ([], Except.error ("unknown module: " ++ mm)) := by
    rw [initRest, herr]
  rw [InitProjectM, if_neg (by rw [hpre]; exact Bool.false_ne_true), hrest]

theorem C6_amended_witness :
    ∃ mm, ModuleRegistry.lookup mm = none ∧
      InitProjectM envOK optsUnknown =
        ([IEv.mkdirRoot], Except.error ("unknown module: " ++ mm)) :=
  C6_amended_unknown_module_after_mkdir envOK optsUnknown "nope" rfl (by decide) (by decide)

/-- The wire loop of `InitProject` never saves the manifest: saves
happen before it (empty list) and after it (final list). -/
theorem wireLoop_saveFree (env : InitEnv) :
    ∀ (ws wired : List String) (w : List String),
      IEv.saveManifest w ∉ (wireLoop env wired ws).1 := by
  intro ws
  induction ws with
  | nil =>
    intro wired w h
    cases h
  | cons a as ih =>
    intro wired w h
    rcases hlk : WireableModuleRegistry.lookup a with _ | spec
    · simp only [wireLoop, hlk] at h
      cases h
    · simp only [wireLoop, hlk] at h
      by_cases hreq : spec.RequiredModules = []
      · rw [if_neg (fun hne => hne hreq)] at h
        by_cases hwk : env.wireOk a = true
        · rw [if_pos hwk] at h
          simp only [List.mem_cons] at h
          rcases h with h | h
          · exact IEv.noConfusion h
          · exact ih (wired ++ [a]) w h
        · rw [if_neg hwk] at h
          cases h
      · rw [if_pos hreq] at h
        by_cases hek : env.ensureOk a = true
        · rw [if_pos hek] at h
          by_cases hwk : env.wireOk a = true
          · rw [if_pos hwk] at h
            simp only [List.mem_cons] at h
            rcases h with h | h | h
            · exact IEv.noConfusion h
            · exact IEv.noConfusion h
            · exact ih (wired ++ [a]) w h
          · rw [if_neg hwk] at h
            simp at h
        · rw [if_neg hek] at h
          simp at h

/-- The wire loop appends a prefix of the requested names to the
in-memory `WiredModules`, in order, and nothing else. -/
theorem wireLoop_wired (env : InitEnv) :
    ∀ (ws wired : List String), ∃ j, (wireLoop env wired ws).2.1 = wired ++ ws.take j := by
  intro ws
  induction ws with
  | nil =>
    intro wired
    exact ⟨0, by simp [wireLoop]⟩
  | cons a as ih =>
    intro wired
    rcases hlk : WireableModuleRegistry.lookup a with _ | spec
    · refine ⟨0, ?_⟩
      simp [wireLoop, hlk]
    · by_cases hreq : spec.RequiredModules = []
      · by_cases hwk : env.wireOk a = true
        · obtain ⟨j, hj⟩ := ih (wired ++ [a])
          refine ⟨j + 1, ?_⟩
          simp only [wireLoop, hlk]
          rw [if_neg (fun hne => hne hreq), if_pos hwk]
          simp only [List.take_succ_cons]
          rw [hj]
          simp
        · refine ⟨0, ?_⟩
          simp only [wireLoop, hlk]
          rw [if_neg (fun hne => hne hreq), if_neg hwk]
          simp
      · by_cases hek : env.ensureOk a = true
        · by_cases hwk : env.wireOk a = true
          · obtain ⟨j, hj⟩ := ih (wired ++ [a])
            refine ⟨j + 1, ?_⟩
            simp only [wireLoop, hlk]
            rw [if_pos hreq, if_pos hek, if_pos hwk]
            simp only [List.take_succ_cons]
            rw [hj]
            simp
          · refine ⟨0, ?_⟩
            simp only [wireLoop, hlk]
            rw [if_pos hreq, if_pos hek, if_neg hwk]
            simp
        · refine ⟨0, ?_⟩
          simp only [wireLoop, hlk]
          rw [if_pos hreq, if_neg hek]
          simp

/-- `runWireModule` either leaves `WiredModules` unchanged and saves
nothing, or appends exactly the one new name and saves exactly that
list. -/
theorem runWire_cases (env : InitEnv) (wired : List String) (m : String) :
    ((runWireModuleM env wired m).2.1 = wired ∧
      ∀ w, IEv.saveManifest w ∉ (runWireModuleM env wired m).1) ∨
    ((runWireModuleM env wired m).2.1 = wired ++ [m] ∧ m ∉ wired ∧
      ∀ w, IEv.saveManifest w ∈ (runWireModuleM env wired m).1 → w = wired ++ [m]) := by
  by_cases hmem : m ∈ wired
  · left
    refine ⟨by simp [runWireModuleM, hmem], ?_⟩
    intro w hw
    simp [runWireModuleM, hmem] at hw
  · rcases hlk : WireableModuleRegistry.lookup m with _ | spec
    · left
      refine ⟨by simp [runWireModuleM, hmem, hlk], ?_⟩
      intro w hw
      simp [runWireModuleM, hmem, hlk] at hw
    · by_cases hreq : spec.RequiredModules = []
      · by_cases hwk : env.wireOk m = true
        · right
          refine ⟨by simp [runWireModuleM, hmem, hlk, hreq, hwk], hmem, ?_⟩
          intro w hw
          simp [runWireModuleM, hmem, hlk, hreq, hwk] at hw
          exact hw
        · left
          refine ⟨by simp [runWireModuleM, hmem, hlk, hreq, hwk], ?_⟩
          intro w hw
          simp [runWireModuleM, hmem, hlk, hreq, hwk] at hw
      · by_cases hek : env.ensureOk m = true
        · by_cases hwk : env.wireOk m = true
          · right
            refine ⟨by simp [runWireModuleM, hmem, hlk, hreq, hek, hwk], hmem, ?_⟩
            intro w hw
            simp [runWireModuleM, hmem, hlk, hreq, hek, hwk] at hw
            exact hw
          · left
            refine ⟨by simp [runWireModuleM, hmem, hlk, hreq, hek, hwk], ?_⟩
            intro w hw
            simp [runWireModuleM, hmem, hlk, hreq, hek, hwk] at hw
        · left
          refine ⟨by simp [runWireModuleM, hmem, hlk, hreq, hek], ?_⟩
          intro w hw
          simp [runWireModuleM, hmem, hlk, hreq, hek] at hw

/-- Every manifest save of `InitProject` writes either the empty list
(step 5) or the prefix of the requested wire modules the loop completed
(final save). -/
theorem initRest_saves (env : InitEnv) (opts : InitOptions) (w : List String)
    (hw : IEv.saveManifest w ∈ (initRest env opts).1) :
    w = [] ∨ ∃ j, w = opts.WireModules.take j := by
  rcases herr : collectPathsGo (ResolveDeps ModuleRegistry opts.Modules) with e | allPaths
  · simp only [initRest, herr] at hw
    cases hw
  · simp only [initRest, herr] at hw
    by_cases hf : allPaths ≠ [] ∧ env.fetchOk = false
    · rw [if_pos hf] at hw
      rcases List.mem_append.mp hw with h1 | h2
      · obtain ⟨-, h⟩ := mem_ite_nil h1
        simp at h
      · simp at h2
    · rw [if_neg hf] at hw
      rcases hwl : (wireLoop env [] opts.WireModules).2.2 with e2 | u
      · simp only [hwl] at hw
        simp only [List.append_assoc, List.mem_append] at hw
        rcases hw with h | h | h | h
        · obtain ⟨-, h⟩ := mem_ite_nil h
          simp at h
        · obtain ⟨-, h⟩ := mem_ite_nil h
          simp at h
        · simp at h
          exact Or.inl h
        · exact absurd h (wireLoop_saveFree env opts.WireModules [] w)
      · simp only [hwl] at hw
        by_cases hne : opts.WireModules ≠ []
        · rw [if_pos hne] at hw
          simp only [List.append_assoc, List.mem_append] at hw
          rcases hw with h | h | h | h | h
          · obtain ⟨-, h⟩ := mem_ite_nil h
            simp at h
          · obtain ⟨-, h⟩ := mem_ite_nil h
            simp at h
          · simp at h
            exact Or.inl h
          · exact absurd h (wireLoop_saveFree env opts.WireModules [] w)
          · simp at h
            obtain ⟨j, hj⟩ := wireLoop_wired env opts.WireModules []
            rw [List.nil_append] at hj
            exact Or.inr ⟨j, h ▸ hj ▸ rfl⟩
        · rw [if_neg hne] at hw
          simp only [List.append_assoc, List.mem_append] at hw
          rcases hw with h | h | h | h
          · obtain ⟨-, h⟩ := mem_ite_nil h
            simp at h
          · obtain ⟨-, h⟩ := mem_ite_nil h
            simp at h
          · simp at h
            exact Or.inl h
          · exact absurd h (wireLoop_saveFree env opts.WireModules [] w)

def optsDup : InitOptions := ⟨"app", "gm", "out", [], "v1", ["jobx", "jobx"]⟩

/-- Claim C8, counterexample.  `InitProject` appends each requested wire
module without checking whether it is already recorded, and the CLI
passes the `--with` list through without deduplication: requesting
`jobx` twice succeeds and saves a manifest whose `WiredModules` lists
`jobx` twice. -/
theorem C8_counterexample_duplicate_wired :
    (InitProjectM envOK optsDup).2 = Except.ok () ∧
    IEv.saveManifest ["jobx", "jobx"] ∈ (InitProjectM envOK optsDup).1 ∧
    ¬ (["jobx", "jobx"] : List String).Nodup := by
  exact ⟨rfl, by decide, by decide⟩

/-- Claim C8, amended.  Both manifest-mutating operations only ever append
to `WiredModules`: the add/wire command leaves it unchanged (already
wired, or failure — then nothing is saved) or appends exactly the one
new name, preserving at-most-once membership unconditionally; every
manifest save of `InitProject` writes the empty list or a prefix of the
requested wire-module list, so at-most-once holds for initialization
exactly when the requested list itself has no duplicate — with
duplicates it is violated (see the counterexample). -/
theorem C8_amended_append_only_saves (env : InitEnv) (wired : List String)
    (m : String) (opts : InitOptions) :
    ((runWireModuleM env wired m).2.1 = wired ∨
     (runWireModuleM env wired m).2.1 = wired ++ [m]) ∧
    (m ∈ wired → (runWireModuleM env wired m).2.1 = wired) ∧
    (wired.Nodup → (runWireModuleM env wired m).2.1.Nodup) ∧
    (∀ w, IEv.saveManifest w ∈ (runWireModuleM env wired m).1 →
      w = wired ++ [m] ∧ m ∉ wired) ∧
    (∀ w, IEv.saveManifest w ∈ (InitProjectM env opts).1 →
      w = [] ∨ ∃ j, w = opts.WireModules.take j) ∧
    (opts.WireModules.Nodup →
      ∀ w, IEv.saveManifest w ∈ (InitProjectM env opts).1 → w.Nodup) := by
  have hsave : ∀ w, IEv.saveManifest w ∈ (InitProjectM env opts).1 →
      w = [] ∨ ∃ j, w = opts.WireModules.take j := by
    intro w hw
    by_cases hpre : env.preexisting = true
    · rw [InitProjectM, if_pos hpre] at hw
      cases hw
    · rw [InitProjectM, if_neg hpre] at hw
      rcases List.mem_cons.mp hw with h | h
      · exact IEv.noConfusion h
      · exact initRest_saves env opts w h
  refine ⟨?_, ?_, ?_, ?_, hsave, ?_⟩
  · rcases runWire_cases env wired m with ⟨h, -⟩ | ⟨h, -, -⟩
    · exact Or.inl h
    · exact Or.inr h
  · intro hmem
    simp [runWireModuleM, hmem]
  · intro hnd
    rcases runWire_cases env wired m with ⟨h, -⟩ | ⟨h, hni, -⟩
    · rw [h]
      exact hnd
    · rw [h]
      refine List.nodup_append.mpr ⟨hnd, by simp, ?_⟩
      intro a ha hm1
      rw [List.mem_singleton.mp hm1] at ha
      exact hni ha
  · intro w hw
    rcases runWire_cases env wired m with ⟨-, hno⟩ | ⟨-, hni, honly⟩
    · exact absurd hw (hno w)
    · exact ⟨honly w hw, hni⟩
  · intro hnd w hw
    rcases hsave w hw with h | ⟨j, hj⟩
    · rw [h]
      exact List.nodup_nil
    · rw [hj]
      exact (List.take_sublist j _).nodup hnd

theorem C8_amended_witness :
    (runWireModuleM envOK ["jobx"] "jobx").2.1 = ["jobx"] :=
  (C8_amended_append_only_saves envOK ["jobx"] "jobx" optsBase).2.1 (by decide)

/-! ### C1: idempotence of a second identical `WireModule` call

The second call is a per-file no-op whenever each touched file's guard
string is present in the file after the first call, and every surface
the module touches has a guard at all.  The counterexample above shows
the latter condition is not automatic; the lemmas below isolate exactly
what makes the second call the identity. -/

theorem injectWireConfigText_noop (spec : WireableModule) (t : Text)
    (h : spec.ConfigFields ≠ [] ∧ containsStr t (guardLine spec.ConfigFields)) :
    injectWireConfigText spec t = t := by
  rw [injectWireConfigText, if_pos h]

theorem injectWireServerText_noop (spec : WireableModule) (t : Text)
    (h : spec.PublicRoutes ≠ [] ∧ containsStr t (guardLine spec.PublicRoutes)) :
    injectWireServerText spec t = t := by
  rw [injectWireServerText, if_pos h]

theorem injectIntoMakefileText_noop (spec : WireableModule) (t : Text)
    (h : spec.MakefileEnv ≠ [] ∧ containsStr t (guardLine spec.MakefileEnv)) :
    injectIntoMakefileText spec t = t := by
  rw [injectIntoMakefileText, if_pos h]

theorem injectWireContainerText_noop_guard (spec : WireableModule) (t : Text)
    (h : wireGuardString spec ≠ [] ∧ containsStr t (wireGuardString spec)) :
    injectWireContainerText spec t = t := by
  simp only [injectWireContainerText]
  rw [if_pos h]

theorem injectWireContainerText_noop_empty (spec : WireableModule)
    (h1 : spec.ContainerImports = []) (h2 : spec.ContainerFields = [])
    (h3 : spec.ModuleInit = []) (h4 : spec.BackgroundStart = [])
    (h5 : spec.ContainerHelpers = []) (t : Text) :
    injectWireContainerText spec t = t := by
  simp [injectWireContainerText, wireGuardString, h1, h2, h3, h4, h5]

theorem bridgesFold_id (wired : List String) (gm pn : Text) :
    ∀ (bridges : List Bridge) (t : Text),
      (∀ b ∈ bridges, hasWiredModule wired b.RequiresModule = true →
        containsStr t (guardLine (replaceBridgePlaceholders b gm pn).ContainerInit)) →
      bridgesFold bridges wired gm pn t = t := by
  intro bridges
  induction bridges with
  | nil =>
    intro t _
    rfl
  | cons b bs ih =>
    intro t h
    rw [bridgesFold, List.foldl_cons]
    by_cases hw : hasWiredModule wired b.RequiresModule = true
    · rw [if_pos hw]
      have hinj : injectBridgeText (replaceBridgePlaceholders b gm pn) t = t := by
        rw [injectBridgeText, if_pos (h b (by simp) hw)]
      rw [hinj]
      have hbs := ih t (fun b2 hb2 => h b2 (by simp [hb2]))
      rw [bridgesFold] at hbs
      exact hbs
    · rw [if_neg hw]
      have hbs := ih t (fun b2 hb2 => h b2 (by simp [hb2]))
      rw [bridgesFold] at hbs
      exact hbs

theorem wireConfigStep_noop (spec : WireableModule) (t1 : Text)
    (hc1 : spec.ConfigLoads ≠ [] → spec.ConfigFields ≠ [])
    (hc2 : spec.ConfigFields ≠ [] → containsStr t1 (guardLine spec.ConfigFields)) :
    wireConfigStep spec t1 = t1 := by
  by_cases h : spec.ConfigFields ≠ [] ∨ spec.ConfigLoads ≠ []
  · have hcf : spec.ConfigFields ≠ [] := by
      rcases h with h | h
      · exact h
      · exact hc1 h
    rw [wireConfigStep, if_pos h]
    exact injectWireConfigText_noop spec t1 ⟨hcf, hc2 hcf⟩
  · rw [wireConfigStep, if_neg h]

theorem wireServerStep_noop (spec : WireableModule) (t1 : Text)
    (hs1 : (spec.PublicRoutes ≠ [] ∨ spec.RouteRegistration ≠ [] ∨
        spec.AuthMiddleware ≠ [] ∨ spec.ServerImports ≠ []) → spec.PublicRoutes ≠ [])
    (hs2 : spec.PublicRoutes ≠ [] → containsStr t1 (guardLine spec.PublicRoutes)) :
    wireServerStep spec t1 = t1 := by
  by_cases h : spec.PublicRoutes ≠ [] ∨ spec.RouteRegistration ≠ [] ∨
      spec.AuthMiddleware ≠ [] ∨ spec.ServerImports ≠ []
  · have hpr := hs1 h
    rw [wireServerStep, if_pos h]
    exact injectWireServerText_noop spec t1 ⟨hpr, hs2 hpr⟩
  · rw [wireServerStep, if_neg h]

theorem wireMakefileStep_noop (spec : WireableModule) (t1 : Text)
    (hm1 : spec.MakefileEnvDisplay ≠ [] → spec.MakefileEnv ≠ [])
    (hm2 : spec.MakefileEnv ≠ [] → containsStr t1 (guardLine spec.MakefileEnv)) :
    wireMakefileStep spec t1 = t1 := by
  by_cases h : spec.MakefileEnv ≠ [] ∨ spec.MakefileEnvDisplay ≠ []
  · have hme : spec.MakefileEnv ≠ [] := by
      rcases h with h | h
      · exact h
      · exact hm1 h
    rw [wireMakefileStep, if_pos h]
    exact injectIntoMakefileText_noop spec t1 ⟨hme, hm2 hme⟩
  · rw [wireMakefileStep, if_neg h]

theorem wireContainerStep_noop (spec : WireableModule) (wired : List String)
    (gm pn : Text) (t1 : Text)
    (hk1 : (spec.ContainerImports ≠ [] ∨ spec.ContainerFields ≠ [] ∨ spec.ModuleInit ≠ [] ∨
        spec.BackgroundStart ≠ [] ∨ spec.ContainerHelpers ≠ []) → wireGuardString spec ≠ [])
    (hk2 : wireGuardString spec ≠ [] → containsStr t1 (wireGuardString spec))
    (hk3 : ∀ b ∈ spec.Bridges, hasWiredModule wired b.RequiresModule = true →
      containsStr t1 (guardLine (replaceBridgePlaceholders b gm pn).ContainerInit)) :
    wireContainerStep spec wired gm pn t1 = t1 := by
  have hA : injectWireContainerText spec t1 = t1 := by
    by_cases hg : wireGuardString spec = []
    · have hnp : ¬(spec.ContainerImports ≠ [] ∨ spec.ContainerFields ≠ [] ∨
          spec.ModuleInit ≠ [] ∨ spec.BackgroundStart ≠ [] ∨ spec.ContainerHelpers ≠ []) :=
        fun hp => (hk1 hp) hg
      push_neg at hnp
      exact injectWireContainerText_noop_empty spec hnp.1 hnp.2.1 hnp.2.2.1
        hnp.2.2.2.1 hnp.2.2.2.2 t1
    · exact injectWireContainerText_noop_guard spec t1 ⟨hg, hk2 hg⟩
  rw [wireContainerStep, hA]
  exact bridgesFold_id wired gm pn spec.Bridges t1 hk3

/-- Claim C1, amended.  A second identical `WireModule` call (same module,
`GoModule`, `ProjectName` and wired set, all four files present) leaves
every file byte-identical, provided every file surface the substituted
module touches carries a guard (config fields when loads are declared, a
nonempty wire-guard when any container fragment is declared, public
routes when any server fragment is declared, a Makefile env block when a
display block is declared) and each guard is contained in the
corresponding file after the first call.  Without these conditions a
second call can duplicate fragments (see the counterexample). -/
theorem C1_amended_idempotent_under_guards (name : String) (spec0 spec : WireableModule)
    (gm pn : Text) (wired : List String) (tc tk ts tm : Text)
    (hlook : WireableModuleRegistry.lookup name = some spec0)
    (hsub : replacePlaceholders spec0 gm pn = spec)
    (hc1 : spec.ConfigLoads ≠ [] → spec.ConfigFields ≠ [])
    (hc2 : spec.ConfigFields ≠ [] →
      containsStr (wireConfigStep spec tc) (guardLine spec.ConfigFields))
    (hk1 : (spec.ContainerImports ≠ [] ∨ spec.ContainerFields ≠ [] ∨ spec.ModuleInit ≠ [] ∨
        spec.BackgroundStart ≠ [] ∨ spec.ContainerHelpers ≠ []) → wireGuardString spec ≠ [])
    (hk2 : wireGuardString spec ≠ [] →
      containsStr (wireContainerStep spec wired gm pn tk) (wireGuardString spec))
    (hk3 : ∀ b ∈ spec.Bridges, hasWiredModule wired b.RequiresModule = true →
      containsStr (wireContainerStep spec wired gm pn tk)
        (guardLine (replaceBridgePlaceholders b gm pn).ContainerInit))
    (hs1 : (spec.PublicRoutes ≠ [] ∨ spec.RouteRegistration ≠ [] ∨
        spec.AuthMiddleware ≠ [] ∨ spec.ServerImports ≠ []) → spec.PublicRoutes ≠ [])
    (hs2 : spec.PublicRoutes ≠ [] →
      containsStr (wireServerStep spec ts) (guardLine spec.PublicRoutes))
    (hm1 : spec.MakefileEnvDisplay ≠ [] → spec.MakefileEnv ≠ [])
    (hm2 : spec.MakefileEnv ≠ [] →
      containsStr (wireMakefileStep spec tm) (guardLine spec.MakefileEnv)) :
    WireModule WireableModuleRegistry ⟨name, gm, pn, wired⟩
        ⟨some tc, some tk, some ts, some tm⟩ =
      .ok (⟨some (wireConfigStep spec tc), some (wireContainerStep spec wired gm pn tk),
            some (wireServerStep spec ts), some (wireMakefileStep spec tm)⟩,
           wireMods spec) ∧
    WireModule WireableModuleRegistry ⟨name, gm, pn, wired⟩
        ⟨some (wireConfigStep spec tc), some (wireContainerStep spec wired gm pn tk),
         some (wireServerStep spec ts), some (wireMakefileStep spec tm)⟩ =
      .ok (⟨some (wireConfigStep spec tc), some (wireContainerStep spec wired gm pn tk),
            some (wireServerStep spec ts), some (wireMakefileStep spec tm)⟩,
           wireMods spec) := by
  have h1 := WireModule_ok WireableModuleRegistry name gm pn wired spec0 tc tk ts tm hlook
  rw [hsub] at h1
  have h2 := WireModule_ok WireableModuleRegistry name gm pn wired spec0
    (wireConfigStep spec tc) (wireContainerStep spec wired gm pn tk)
    (wireServerStep spec ts) (wireMakefileStep spec tm) hlook
  rw [hsub] at h2
  rw [wireConfigStep_noop spec (wireConfigStep spec tc) hc1 hc2,
    wireContainerStep_noop spec wired gm pn (wireContainerStep spec wired gm pn tk) hk1 hk2 hk3,
    wireServerStep_noop spec (wireServerStep spec ts) hs1 hs2,
    wireMakefileStep_noop spec (wireMakefileStep spec tm) hm1 hm2] at h2
  exact ⟨h1, h2⟩

/-- The substituted jobx spec at the representative identifiers. -/
def specJ : WireableModule := replacePlaceholders spec_jobx acmeGo acmeName

theorem C1_amended_witness :
    WireModule WireableModuleRegistry ⟨"jobx", acmeGo, acmeName, []⟩
        ⟨some freshConfigGo, some freshContainerGo, some freshServerGo, some freshMakefile⟩ =
      .ok (⟨some (wireConfigStep specJ freshConfigGo),
            some (wireContainerStep specJ [] acmeGo acmeName freshContainerGo),
            some (wireServerStep specJ freshServerGo),
            some (wireMakefileStep specJ freshMakefile)⟩, wireMods specJ) ∧
    WireModule WireableModuleRegistry ⟨"jobx", acmeGo, acmeName, []⟩
        ⟨some (wireConfigStep specJ freshConfigGo),
         some (wireContainerStep specJ [] acmeGo acmeName freshContainerGo),
         some (wireServerStep specJ freshServerGo),
         some (wireMakefileStep specJ freshMakefile)⟩ =
      .ok (⟨some (wireConfigStep specJ freshConfigGo),
            some (wireContainerStep specJ [] acmeGo acmeName freshContainerGo),
            some (wireServerStep specJ freshServerGo),
            some (wireMakefileStep specJ freshMakefile)⟩, wireMods specJ) :=
  C1_amended_idempotent_under_guards "jobx" spec_jobx specJ acmeGo acmeName []
    freshConfigGo freshContainerGo freshServerGo freshMakefile
    (by rfl) rfl (by decide) (by decide) (by decide) (by decide) (by decide)
    (by decide) (by decide) (by decide) (by decide)

/-! ### C2: the marker token survives every insertion exactly once

Every insertion the injector performs (module fragments and bridge
fragments alike) has the shape
`strings.Replace(content, marker, fragment ++ sep ++ marker, 1)`: the
first marker occurrence is replaced by the new material followed by the
marker itself.  `countSpan m v u` counts the marker occurrences starting
inside `u` when `v` follows it; it decomposes occurrence counting over
concatenation. -/

def countSpan (pat v : Text) : Text → Nat
  | [] => 0
  | c :: u => (if pat <+: (c :: u) ++ v then 1 else 0) + countSpan pat v u

theorem countOcc_append (m v : Text) :
    ∀ u, countOcc (u ++ v) m = countSpan m v u + countOcc v m := by
  intro u
  induction u with
  | nil => simp [countSpan]
  | cons c u ih =>
    rw [List.cons_append, countOcc, countSpan, List.cons_append, ih]
    omega

theorem countOcc_middle_pos (m : Text) (hm : m ≠ []) :
    ∀ (x y : Text), 1 ≤ countOcc (x ++ m ++ y) m := by
  intro x
  induction x with
  | nil =>
    intro y
    rcases hmc : m with _ | ⟨c, m2⟩
    · exact absurd hmc hm
    · subst hmc
      simp only [List.nil_append]
      rw [List.cons_append, countOcc, if_pos]
      · omega
      · exact List.cons_prefix_cons.mpr ⟨rfl, List.prefix_append m2 y⟩
  | cons c x2 ih =>
    intro y
    rw [List.cons_append, List.cons_append, countOcc]
    have := ih y
    omega

theorem replaceFirst_unique (m r : Text) (hm : m ≠ []) :
    ∀ (a b : Text), countOcc (a ++ m ++ b) m = 1 →
      replaceFirst m r (a ++ m ++ b) = a ++ r ++ b := by
  intro a
  induction a with
  | nil =>
    intro b _
    rcases hmc : m with _ | ⟨c, m2⟩
    · exact absurd hmc hm
    · subst hmc
      simp only [List.nil_append]
      rw [List.cons_append, replaceFirst,
        if_pos (List.cons_prefix_cons.mpr ⟨rfl, List.prefix_append m2 b⟩),
        List.length_cons, List.drop_succ_cons, List.drop_left]
  | cons c a2 ih =>
    intro b h1
    simp only [List.cons_append] at h1 ⊢
    have hinner : 1 ≤ countOcc (a2 ++ m ++ b) m := countOcc_middle_pos m hm a2 b
    rw [countOcc] at h1
    have hnot : ¬ m <+: c :: (a2 ++ m ++ b) := by
      intro hpre
      rw [if_pos hpre] at h1
      omega
    rw [replaceFirst, if_neg hnot]
    have h1i : countOcc (a2 ++ m ++ b) m = 1 := by
      rw [if_neg hnot] at h1
      omega
    rw [ih b h1i]

/-- The injector's insertion sequence at one extension point: each step
replaces the first occurrence of the marker by the step's material
(fragment plus separator) followed by the marker. -/
def insertSeq (m : Text) (fs : List Text) (t : Text) : Text :=
  fs.foldl (fun t f => replaceFirst m (f ++ m) t) t

/-- Claim C2.  If a target file contains the literal marker token exactly
once (`t = a ++ m ++ b`, one occurrence in all), then after any sequence
of injector insertions at that marker — each safe in that its material
starts no marker occurrence and creates none spanning the text already
before the marker — the marker still occurs exactly once, and all
inserted material sits immediately before it, in insertion order. -/
theorem C2_marker_exactly_once (m : Text) (fs : List Text) :
    ∀ (a b : Text), m ≠ [] →
    countOcc (a ++ m ++ b) m = 1 →
    (∀ pre f suf, fs = pre ++ f :: suf →
      countSpan m (f ++ m ++ b) (a ++ pre.flatten) = countSpan m (m ++ b) (a ++ pre.flatten)) →
    (∀ pre f suf, fs = pre ++ f :: suf → countSpan m (m ++ b) f = 0) →
    insertSeq m fs (a ++ m ++ b) = a ++ fs.flatten ++ m ++ b ∧
    countOcc (insertSeq m fs (a ++ m ++ b)) m = 1 := by
  induction fs with
  | nil =>
    intro a b _ h1 _ _
    refine ⟨?_, h1⟩
    simp [insertSeq]
  | cons f fs2 ih =>
    intro a b hm h1 hs1 hs2
    have hstep : replaceFirst m (f ++ m) (a ++ m ++ b) = a ++ f ++ m ++ b := by
      rw [replaceFirst_unique m (f ++ m) hm a b h1]
      simp [List.append_assoc]
    have hf0 : countSpan m (m ++ b) f = 0 := hs2 [] f fs2 rfl
    have ha0 : countSpan m (f ++ (m ++ b)) a = countSpan m (m ++ b) a := by
      have h := hs1 [] f fs2 rfl
      simpa [List.append_assoc] using h
    have hcount : countOcc (a ++ f ++ m ++ b) m = 1 := by
      have e1 := countOcc_append m (f ++ (m ++ b)) a
      have e2 := countOcc_append m (m ++ b) f
      have e3 := countOcc_append m (m ++ b) a
      have h1r := h1
      simp only [List.append_assoc] at h1r ⊢
      omega
    have hs1n : ∀ pre f2 suf, fs2 = pre ++ f2 :: suf →
        countSpan m (f2 ++ m ++ b) ((a ++ f) ++ pre.flatten) =
        countSpan m (m ++ b) ((a ++ f) ++ pre.flatten) := by
      intro pre f2 suf hfs
      have h := hs1 (f :: pre) f2 suf (by rw [hfs]; rfl)
      simpa [List.append_assoc] using h
    have hs2n : ∀ pre f2 suf, fs2 = pre ++ f2 :: suf → countSpan m (m ++ b) f2 = 0 :=
      fun pre f2 suf hfs => hs2 (f :: pre) f2 suf (by rw [hfs]; rfl)
    obtain ⟨hseq, hcnt⟩ := ih (a ++ f) b hm hcount hs1n hs2n
    constructor
    · simp only [insertSeq, List.foldl_cons]
      rw [hstep]
      rw [insertSeq] at hseq
      rw [hseq]
      simp [List.append_assoc, List.flatten]
    · simp only [insertSeq, List.foldl_cons]
      rw [hstep]
      rw [insertSeq] at hcnt
      exact hcnt

/-- The `cmd/container.go` text before the `module-init` marker. -/
def c2a : Text := txt
  "import (\n\t// manifesto:container-imports\n)\n\ntype Container struct \x7b\n\t// manifesto:container-fields\n\x7d\n\nfunc initModules() \x7b\n\t"

/-- The `cmd/container.go` text after the `module-init` marker. -/
def c2b : Text := txt
  "\n\x7d\n\nfunc start() \x7b\n\t// manifesto:background-start\n\x7d\n\n// manifesto:container-helpers\n"

/-- jobx's `ModuleInit` fragment with the injector's separator. -/
def c2f : Text := txt
  "\tc.Dispatcher = asyncx.NewDispatcher(c.Redis, logx.DefaultLogger())\n\n\t"

set_option maxHeartbeats 3200000

example : c2a ++ mModuleInit ++ c2b = freshContainerGo := by decide

theorem c2once : countOcc (c2a ++ mModuleInit ++ c2b) mModuleInit = 1 := by decide

theorem c2safe1 :
    countSpan mModuleInit (c2f ++ mModuleInit ++ c2b) (c2a ++ ([] : List Text).flatten) =
    countSpan mModuleInit (mModuleInit ++ c2b) (c2a ++ ([] : List Text).flatten) := by decide

theorem c2safe2 : countSpan mModuleInit (mModuleInit ++ c2b) c2f = 0 := by decide

theorem singleton_split {α : Type} (x : α) (P : List α → α → Prop)
    (h : P [] x) : ∀ pre f suf, ([x] : List α) = pre ++ f :: suf → P pre f := by
  intro pre f suf hfs
  rcases pre with _ | ⟨p, pre2⟩
  · injection hfs with h1 h2
    subst h1
    exact h
  · injection hfs with h1 h2
    exact absurd (List.append_eq_nil.mp h2.symm).2 (List.cons_ne_nil f suf)

theorem C2_marker_exactly_once_witness :
    insertSeq mModuleInit [c2f] (c2a ++ mModuleInit ++ c2b) =
      c2a ++ [c2f].flatten ++ mModuleInit ++ c2b ∧
    countOcc (insertSeq mModuleInit [c2f] (c2a ++ mModuleInit ++ c2b)) mModuleInit = 1 :=
  C2_marker_exactly_once mModuleInit [c2f] c2a c2b (by decide) c2once
    (singleton_split c2f
      (fun pre f =>
        countSpan mModuleInit (f ++ mModuleInit ++ c2b) (c2a ++ pre.flatten) =
        countSpan mModuleInit (mModuleInit ++ c2b) (c2a ++ pre.flatten))
      c2safe1)
    (singleton_split c2f
      (fun _ f => countSpan mModuleInit (mModuleInit ++ c2b) f = 0)
      c2safe2)

end Manifesto
